import Mathlib

/-!
Verification development for the legacy Python stack-graph construction
rule set (the tree-sitter graph rule file shipped with the repository,
`src/unnamed/part_000`).  The rule file is a declarative table: each
syntactic shape of the parsed Python tree contributes graph edges and
node attributes, and scoped context variables (written `@node::var` in
the rule file) are threaded down the tree.

The embedding below transcribes the stanzas of that file into an
executable evaluator:

* a syntax node is identified by its `Path` (child-slot path from the
  module root); a graph node is a `(Path, Port)` pair or the global
  `root` node;
* each stanza becomes a Lean function producing the literal list of
  `Item`s (edges and attributes) the stanza emits for one match;
* scoped variables (`::bottom`, `::local_scope`, `::parent_module`,
  `::grandparent_module`, `::global`, `::global_dot`, `::super_scope`,
  `::class_parent_scope`, `::class_self_scope`,
  `::class_member_attr_scope`, `::function_returns`) are the fields of
  `Ctx`, updated exactly where the rule file updates them;
* `nil`-valued scope variables are modelled with `Option GNode`, and an
  `edge` statement mentioning such a variable emits nothing when the
  variable is `nil` (this is the intent documented by the rule file's
  own comment "Prevent functions defined inside of method bodies from
  being treated like methods");
* duplicate emissions (several stanzas matching the same shape) are
  kept: the item list is a multiset of everything emitted.

Stanzas transcribed: the module/filepath stanza, the import stanzas for
plain (non-aliased) dotted names, relative import prefixes and wildcard
imports, the block/statement sequencing stanzas, loop transparency, the
function and class definition stanzas (including the first-parameter
`self` stanza), decorated definitions, the `syntax_type`
method/function disjunction, match/case clauses, calls (generic,
attribute-receiver, keyword-argument and `super`), attribute access,
identifiers in expression and pattern position, and list literals.
Stanzas for aliased imports, the detailed parameter forms, tuples,
dictionaries, sets, splats, binary operators and `with` items are not
needed by any claim and are omitted.
-/

namespace StackRules

/-- Identity of a syntax node: its child-slot path from the module root. -/
abbrev Path := List Nat

/-- Named graph-node ports hung off a syntax node.  Port names follow the
rule file (`after_scope`, `drop_scope`, ...); `plain` is the graph node
denoted by a bare syntax-node capture, `defP`/`callP` stand for the
`def`/`call` ports, and the `m*` family are the module's filepath chain
nodes created by repeated `.next_def`/`.next_ref`/`.dot` accesses in the
scan loop (indexed by scan iteration). -/
inductive Port where
  | plain
  | before_scope
  | after_scope
  | input
  | output
  | output_dot
  | input_dot
  | output_args
  | callP
  | return_value
  | drop_scope
  | parent_scope
  | dot
  | members
  | member_attrs
  | self_scope
  | self_dot
  | super_scope
  | call_drop
  | ref
  | ref_dot
  | defP
  | def_dot
  | arg_index
  | arg_name
  | called
  | new_bindings
  | new_binding_pop
  | mDef (i : Nat)
  | mDefDot (i : Nat)
  | mRef (i : Nat)
  | mRefDot (i : Nat)
  | global_ref
  | global_dot_ref
  deriving DecidableEq, Repr

/-- A graph node: the distinguished `root`, or a port of a syntax node. -/
inductive GNode where
  | root
  | n (p : Path) (port : Port)
  deriving DecidableEq, Repr

/-- Attribute values: strings, numbers (the DSL's integer results such as
`(+ 1 (child-index ...))`), or a reference to a syntax node (used by
`definiens` and `push-scope`). -/
inductive AttrVal where
  | s (v : String)
  | num (v : Nat)
  | syn (p : Path)
  deriving DecidableEq, Repr

/-- One emitted graph item: a directed edge with its precedence (0 when
the stanza gives none), or a node attribute.  A `none` attribute value
models a bare attribute such as `attr x "pop"` (pop of the node's own
source text) or a flag such as `"definition"`. -/
inductive Item where
  | edge (src dst : GNode) (prec : Nat)
  | attr (node : GNode) (key : String) (val : Option AttrVal)
  deriving DecidableEq, Repr

/-- Ports of the module syntax node (path `[]`). -/
def modN (pt : Port) : GNode := .n [] pt

/-! ## The module stanza (rule file lines 15-82)

The stanza scans the module's filesystem path.  The three scan arms are
the regexes `([^/]+)/` (one directory segment), `__init__\.py$` and
`([^/]+)$`; the scan picks the earliest-starting match, ties broken by
arm order, so a path of the form `d0/d1/.../dk/file` runs the first arm
once per directory segment and then exactly one of the other two arms on
the file name (`__init__.py` hits the second arm because it is listed
before the third).  We therefore take the path pre-split into its
directory segments plus file name and transcribe each arm's body. -/

/-- Body of the first scan arm (`([^/]+)/`), at scan iteration `i`:
the items emitted for one directory segment. -/
def dirStepItems (i : Nat) (seg : String) : List Item :=
  [ .edge (modN (.mDef i)) (modN (.mDefDot i)) 0,
    .edge (modN (.mDefDot i)) (modN (.mDef (i+1))) 0,
    .edge (modN (.mRef (i+1))) (modN (.mRefDot i)) 0,
    .edge (modN (.mRefDot i)) (modN (.mRef i)) 0,
    .attr (modN (.mDef i)) "pop" (some (.s seg)),
    .attr (modN (.mDefDot i)) "pop" (some (.s ".")),
    .attr (modN (.mRef i)) "push" (some (.s seg)),
    .attr (modN (.mRefDot i)) "push" (some (.s ".")),
    .attr (modN (.mDef (i+1))) "no_span" none,
    .attr (modN (.mRef (i+1))) "no_span" none ]

/-- Items of the directory-segment arm over the whole directory prefix. -/
def scanDirItems : Nat → List String → List Item
  | _, [] => []
  | i, seg :: rest => dirStepItems i seg ++ scanDirItems (i+1) rest

/-- The `parent_module_ref` variable after the scan: starts at the file
reference node and is set to the current reference node on every
directory-segment iteration. -/
def scanParentRef : Nat → GNode → List String → GNode
  | _, pr, [] => pr
  | i, _, _ :: rest => scanParentRef (i+1) (modN (.mRef i)) rest

/-- The `grandparent_module_ref` variable after the scan: on every
directory-segment iteration it receives the previous `parent_module_ref`. -/
def scanGrandRef : Nat → GNode → GNode → List String → GNode
  | _, _, gr, [] => gr
  | i, pr, _, _ :: rest => scanGrandRef (i+1) (modN (.mRef i)) pr rest

/-- The `parent_module_def` variable after the scan (used by the
`__init__.py` arm): set to the current definition node on every
directory-segment iteration. -/
def scanParentDef : Nat → GNode → List String → GNode
  | _, pd, [] => pd
  | i, _, _ :: rest => scanParentDef (i+1) (modN (.mDef i)) rest

/-- Replace every occurrence of `.py` (the rule file's
`(replace $1 "\.py" "")`, a regex replace-all). -/
def removePy : List Char → List Char
  | [] => []
  | '.' :: 'p' :: 'y' :: rest => removePy rest
  | c :: rest => c :: removePy rest

/-- `stripPy` on strings. -/
def stripPy (s : String) : String := ⟨removePy s.data⟩

/-- Body of the third scan arm (`([^/]+)$`) for the file-name segment,
reached with the definition chain at index `k` (= number of directory
segments). -/
def finalArmItems (k : Nat) (file : String) : List Item :=
  [ .edge (modN (.mDef k)) (modN (.mDefDot k)) 0,
    .edge (modN (.mDefDot k)) (modN (.mDef (k+1))) 0,
    .attr (modN (.mDef k)) "definition" none,
    .attr (modN (.mDef k)) "pop" (some (.s (stripPy file))),
    .attr (modN (.mDefDot k)) "pop" (some (.s ".")),
    .attr (modN (.mDef (k+1))) "no_span" none,
    .attr (modN (.mRef k)) "no_span" none ]

/-- Index of the `module_def` variable after the whole scan: the
`__init__.py` arm does not advance the chain, the plain file arm does. -/
def moduleDefEnd (dirs : List String) (file : String) : Nat :=
  if file = "__init__.py" then dirs.length else dirs.length + 1

/-- All items of the module stanza for a file at `dirs / file`:
the initial `no_span` attributes, the scan, and the closing edges that
root the chains and create the `<builtins>` global reference. -/
def moduleRuleItems (dirs : List String) (file : String) : List Item :=
  [ .attr (modN (.mDef 0)) "no_span" none,
    .attr (modN (.mRef 0)) "no_span" none ]
  ++ scanDirItems 0 dirs
  ++ (if file = "__init__.py" then
        [ .attr (scanParentDef 0 (modN (.mDef 0)) dirs) "definition" none ]
      else finalArmItems dirs.length file)
  ++ [ .edge GNode.root (modN (.mDef 0)) 0,
       .edge (modN (.mRef 0)) GNode.root 0,
       .edge (modN (.mDef (moduleDefEnd dirs file))) (modN .after_scope) 0,
       .edge (modN .before_scope) (modN .global_dot_ref) 0,
       .edge (modN .global_ref) GNode.root 0,
       .attr (modN .global_ref) "push" (some (.s "<builtins>")),
       .edge (modN .global_dot_ref) (modN .global_ref) 0,
       .attr (modN .global_dot_ref) "push" (some (.s ".")) ]

/-- The scoped context variables threaded down the tree.  Variables that
are only introduced by some enclosing construct (class scopes,
`function_returns`) are `Option`s, `none` standing for the rule file's
`nil`/unbound state. -/
structure Ctx where
  localScope : GNode
  bottom : GNode
  parentModule : GNode
  grandparentModule : GNode
  globalRef : GNode
  globalDotRef : GNode
  superScope : Option GNode
  classParentScope : Option GNode
  classSelfScope : Option GNode
  classMemberAttrScope : Option GNode
  functionReturns : Option GNode
  deriving DecidableEq, Repr

/-- The context established by the module stanza (its `var @mod::...`
lines) for the module's children. -/
def moduleCtx (dirs : List String) : Ctx :=
  { localScope := modN .before_scope
    bottom := modN .after_scope
    parentModule := scanParentRef 0 (modN (.mRef 0)) dirs
    grandparentModule := scanGrandRef 0 (modN (.mRef 0)) (modN (.mRef 0)) dirs
    globalRef := modN .global_ref
    globalDotRef := modN .global_dot_ref
    superScope := none
    classParentScope := none
    classSelfScope := none
    classMemberAttrScope := none
    functionReturns := none }

/-! ## The syntax tree

The node kinds the transcribed stanzas pattern-match on.  Child-slot
conventions (used to form the `Path` of every child):

* function definition: name `0`, parameters `1`, body block `2`;
* class definition: name `0`, superclass argument list `1` (element `k`
  at `1, k`), body block `2`;
* call: callee `0`, argument list `1`, positional argument `k` at
  `1, 0, k`, keyword argument `j` at `1, 1, j` (its value at slot `1`);
* attribute access: object `0`, attribute name `1`;
* import statements: dotted module name `0` (identifier `k` at `0, k`;
  for a relative import the `import_prefix` sits at `0, 0` and the
  dotted name's identifiers at `0, 1, k`), imported dotted name `j` at
  `1 + j`, the wildcard `*` node at `1`;
* if/try statements: first block `0`, elif/except clause `j` at `1 + j`
  (its block at slot `0`), else/finally clause after those;
* match statement: case clause `j` at `j`, its pattern at slot `0`
  (wrapped expression at `0, 0`) and consequence block at slot `1`;
* every statement of a block (or of the module) at slot `i` of the
  block's path.

Positional arguments and superclass list elements additionally carry the
parser-reported `child-index` value (an input of the `(child-index ...)`
DSL function; tree-sitter counts anonymous tokens, so it is data of the
parse, not derivable from the list position). -/

inductive Expr where
  | ident (name : String)
  | attrE (obj : Expr) (name : String)
  | call (fn : Expr) (posArgs : List (Nat × Expr)) (kwArgs : List (String × Expr))
  | listL (els : List Expr)

/-- The `module_name:` field of a `from ... import` statement: a plain
dotted name, or a relative import (`import_prefix` text plus an optional
dotted name). -/
inductive MName where
  | plain (ids : List String)
  | rel (dots : String) (ids : List String)

inductive Stmt where
  | passS
  | exprStmt (e : Expr)
  | assign (lhs : Expr) (rhs : Expr)
  | returnS (e : Expr)
  | importN (ids : List String)
  | importFrom (src : MName) (names : List (List String))
  | importStar (modIds : List String)
  | fd (name : String) (params : List String) (body : List Stmt)
  | classD (name : String) (supers : List (Nat × Expr)) (body : List Stmt)
  | decorated (inner : Stmt)
  | ifS (thenB : List Stmt) (elifs : List (List Stmt)) (elseB : Option (List Stmt))
  | forS (pat : Expr) (iter : Expr) (body : List Stmt)
  | whileS (cond : Expr) (body : List Stmt)
  | withS (body : List Stmt)
  | tryS (body : List Stmt) (handlers : List (List Stmt)) (fin : Option (List Stmt))
  | matchS (cases : List (Expr × List Stmt))

/-- A Python source file: its directory segments, file name and
top-level statements. -/
structure Module where
  dirs : List String
  file : String
  stmts : List Stmt

/-- The construct whose block (or, for the module, whose own child list)
directly contains a statement; this is what the `syntax_type`
disjunction of the rule file cases on. -/
inductive Owner where
  | moduleB
  | functionB
  | classB
  | ifB
  | elifB
  | elseB
  | caseB
  | forB
  | whileB
  | tryB
  | exceptB
  | finallyB
  | withB
  deriving DecidableEq, Repr

/-- `edge src -> v` for an optional scope variable: nothing when the
variable is `nil`. -/
def optEdge (src : GNode) : Option GNode → List Item
  | none => []
  | some d => [.edge src d 0]

/-- `edge v -> dst` for an optional scope variable. -/
def optEdgeFrom (dst : GNode) : Option GNode → List Item
  | none => []
  | some s => [.edge s dst 0]

/-! ## Scope stanzas (lines 275-349) -/

/-- Context for statement `i` of the block at `bp`: the stanza
`let @stmt::local_scope = @stmt.before_scope` (line 297). -/
def stCtx (ctx : Ctx) (bp : Path) (i : Nat) : Ctx :=
  { ctx with localScope := .n (bp ++ [i]) .before_scope }

/-- The block sequencing edges for a block at `bp` holding `n`
statements: block after-scope to last statement (line 280, and again
line 310 for `block` nodes, which that second stanza matches but
`module` nodes do not), each statement's after-scope back to its
before-scope (line 296), consecutive statements chained (line 288), and
the first statement seeded from the block's before-scope (line 305). -/
def blockSeqItems (bp : Path) (isBlock : Bool) (n : Nat) : List Item :=
  (if n = 0 then [] else
    [ .edge (.n bp .after_scope) (.n (bp ++ [n - 1]) .after_scope) 0 ]
    ++ (if isBlock then
          [ .edge (.n bp .after_scope) (.n (bp ++ [n - 1]) .after_scope) 0 ]
        else [])
    ++ [ .edge (.n (bp ++ [0]) .before_scope) (.n bp .before_scope) 0 ])
  ++ ((List.range n).flatMap fun i =>
        [ .edge (.n (bp ++ [i]) .after_scope) (.n (bp ++ [i]) .before_scope) 0 ]
        ++ (if i + 1 < n then
              [ .edge (.n (bp ++ [i + 1]) .before_scope) (.n (bp ++ [i]) .after_scope) 0 ]
            else []))

/-- Wiring of a construct's block (line 318 group, and line 339 for the
module/first-block part of a match statement is handled separately):
the block's before-scope reaches the construct's `::local_scope` and the
construct's after-scope reaches the block's after-scope. -/
def attachBlock (ctx : Ctx) (p : Path) (bp : Path) : List Item :=
  [ .edge (.n bp .before_scope) ctx.localScope 0,
    .edge (.n p .after_scope) (.n bp .after_scope) 0 ]

/-! ## The syntax_type disjunction (lines 406-453) -/

/-- The label chosen by the big disjunction: `method` for a function
definition (possibly under a `decorated_definition`) directly inside a
class body; `function` when the enclosing construct is the module, an
if/elif/else branch, a case clause, a for or while body, a try/except/
finally branch, a with body, or another function body. -/
def stxTypeFor : Owner → String
  | .classB => "method"
  | .moduleB => "function"
  | .ifB => "function"
  | .elifB => "function"
  | .elseB => "function"
  | .caseB => "function"
  | .forB => "function"
  | .whileB => "function"
  | .tryB => "function"
  | .exceptB => "function"
  | .finallyB => "function"
  | .withB => "function"
  | .functionB => "function"

/-- The `syntax_type` attribute emitted for one direct child statement
of a block owned by `o` (the disjunction also matches through one
`decorated_definition` wrapper); the stanzas emit no edges. -/
def stxTypeItemsFor (o : Owner) (p : Path) : Stmt → List Item
  | .fd _ _ _ =>
      [ .attr (.n (p ++ [0]) .plain) "syntax_type" (some (.s (stxTypeFor o))) ]
  | .decorated (.fd _ _ _) =>
      [ .attr (.n (p ++ [0, 0]) .plain) "syntax_type" (some (.s (stxTypeFor o))) ]
  | _ => []

/-- `syntax_type` attributes over a whole statement list. -/
def blockStxItems (o : Owner) (bp : Path) : Nat → List Stmt → List Item
  | _, [] => []
  | i, s :: rest => stxTypeItemsFor o (bp ++ [i]) s ++ blockStxItems o bp (i+1) rest

/-! ## Expression stanzas (lines 603-745) -/

/-- Generic call wiring (lines 603-610): the call's output pushes a
`()` frame carrying the argument list as scope payload and continues at
the callee's output. -/
def callCoreItems (p : Path) : List Item :=
  [ .edge (.n p .output) (.n p .output_args) 0,
    .edge (.n p .output_args) (.n (p ++ [0]) .output) 0,
    .attr (.n p .output_args) "push" (some (.s "()")),
    .attr (.n p .output_args) "push-scope" (some (.syn (p ++ [1]))) ]

/-- Path of positional argument `k` of the argument list at `ap`. -/
def posArgNode (ap : Path) (k : Nat) : Path := ap ++ [0, k]

/-- Path of keyword argument `j` of the argument list at `ap`. -/
def kwArgNode (ap : Path) (j : Nat) : Path := ap ++ [1, j]

/-- The attribute-receiver stanza (lines 612-626), which matches once
per positional argument of a call whose callee is an attribute access:
the receiver is threaded as argument `"0"` (re-emitted on every match)
and the argument at parser child-index `ci` pops `ci + 1`. -/
def recvShiftItems (rcv : Path) (ap : Path) : Nat → List (Nat × Expr) → List Item
  | _, [] => []
  | k, (ci, _) :: rest =>
      [ .edge (.n ap .plain) (.n (posArgNode ap k) .arg_index) 0,
        .edge (.n rcv .plain) (.n rcv .arg_index) 0,
        .attr (.n rcv .arg_index) "pop" (some (.s "0")),
        .edge (.n rcv .arg_index) (.n rcv .output) 0,
        .attr (.n (posArgNode ap k) .arg_index) "pop" (some (.num (ci + 1))),
        .edge (.n (posArgNode ap k) .arg_index) (.n (posArgNode ap k) .output) 0 ]
      ++ recvShiftItems rcv ap (k+1) rest

/-- Dispatch of the attribute-receiver stanza: it only matches when the
callee is an attribute access (the receiver is the attribute's object,
child `0, 0` of the call). -/
def recvItems (p : Path) (fn : Expr) (posArgs : List (Nat × Expr)) : List Item :=
  match fn with
  | .attrE _ _ => recvShiftItems (p ++ [0, 0]) (p ++ [1]) 0 posArgs
  | _ => []

/-- Keyword-argument wiring (lines 628-637): the argument list pops the
keyword name and continues at the value's output. -/
def kwWireItems (ap : Path) : Nat → List (String × Expr) → List Item
  | _, [] => []
  | j, (nm, _) :: rest =>
      [ .edge (.n ap .plain) (.n (kwArgNode ap j) .arg_name) 0,
        .attr (.n (kwArgNode ap j) .arg_name) "pop" (some (.s nm)),
        .edge (.n (kwArgNode ap j) .arg_name) (.n (kwArgNode ap j ++ [1]) .output) 0 ]
      ++ kwWireItems ap (j+1) rest

/-- The generic argument-list stanza (lines 639-645): every expression
argument of every argument list pops its plain parser child-index. -/
def genericArgItems (ap : Path) : Nat → List (Nat × Expr) → List Item
  | _, [] => []
  | k, (ci, _) :: rest =>
      [ .edge (.n ap .plain) (.n (posArgNode ap k) .arg_index) 0,
        .attr (.n (posArgNode ap k) .arg_index) "pop" (some (.num ci)),
        .edge (.n (posArgNode ap k) .arg_index) (.n (posArgNode ap k) .output) 0 ]
      ++ genericArgItems ap (k+1) rest

/-- The `super` call stanza (lines 647-654): a call whose callee is a
bare identifier equal to `super` (the stanza's `#eq?` predicate) wires
its output to the inherited `::super_scope`. -/
def superItems (ctx : Ctx) (p : Path) (fn : Expr) : List Item :=
  match fn with
  | .ident nm => if nm = "super" then optEdge (.n p .output) ctx.superScope else []
  | _ => []

/-- Identifier stanzas (lines 696-718): shared wiring for expression
(`primary_expression`) and pattern position; in pattern position the
input edge carries precedence 1 and the input is a definition, in
expression position the output is a reference. -/
def identItems (isPat : Bool) (ctx : Ctx) (p : Path) : List Item :=
  [ .edge (.n p .output) ctx.localScope 0 ]
  ++ optEdge (.n p .output) ctx.classParentScope
  ++ [ .edge ctx.localScope (.n p .input) (if isPat then 1 else 0),
       .attr (.n p .input) "pop" none ]
  ++ (if isPat then [.attr (.n p .input) "definition" none] else [])
  ++ [ .attr (.n p .output) "push" none ]
  ++ (if isPat then [] else [.attr (.n p .output) "reference" none])
  ++ [ .attr (.n p .new_binding_pop) "pop" none,
       .attr (.n p .new_binding_pop) "definition" none,
       .edge (.n p .new_bindings) (.n p .new_binding_pop) 0 ]

/-- Attribute-access stanzas (lines 668-694): bidirectional dotted
wiring; in pattern position the attribute name's input is a definition,
in expression position its output is a reference. -/
def attrItems (isPat : Bool) (p : Path) : List Item :=
  [ .edge (.n p .output) (.n (p ++ [1]) .output) 0,
    .edge (.n (p ++ [1]) .output) (.n p .output_dot) 0,
    .edge (.n p .output_dot) (.n (p ++ [0]) .output) 0,
    .edge (.n (p ++ [0]) .input) (.n p .input_dot) 0,
    .edge (.n p .input_dot) (.n (p ++ [1]) .input) 0,
    .edge (.n (p ++ [1]) .input) (.n p .input) 0,
    .attr (.n p .output_dot) "push" (some (.s ".")),
    .attr (.n p .input_dot) "pop" (some (.s ".")),
    .attr (.n (p ++ [1]) .input) "pop" none,
    .attr (.n (p ++ [1]) .output) "push" none ]
  ++ (if isPat then [.attr (.n (p ++ [1]) .input) "definition" none]
      else [.attr (.n (p ++ [1]) .output) "reference" none])

/-- List-literal stanza (lines 734-739): the list's value is the
built-in `list`, reached by pushing `list` into the module's global
(builtins) reference chain. -/
def listCoreItems (ctx : Ctx) (p : Path) : List Item :=
  [ .edge (.n p .output) (.n p .called) 0,
    .edge (.n p .called) ctx.globalDotRef 0,
    .attr (.n p .called) "push" (some (.s "list")) ]

/-- New-bindings propagation out of list elements (lines 741-744). -/
def listBindItems (p : Path) : Nat → List Expr → List Item
  | _, [] => []
  | k, _ :: rest =>
      .edge (.n p .new_bindings) (.n (p ++ [k]) .new_bindings) 0
      :: listBindItems p (k+1) rest

/-! ## Import stanzas (lines 84-269, non-aliased forms) -/

/-- The leaf stanza (lines 165-177): the last identifier of an imported
dotted name is both a definition and a reference, chained together. -/
def leafItems (dp : Path) (k : Nat) : List Item :=
  [ .attr (.n (dp ++ [k]) .defP) "pop" none,
    .attr (.n (dp ++ [k]) .defP) "definition" none,
    .attr (.n (dp ++ [k]) .ref) "push" none,
    .attr (.n (dp ++ [k]) .ref) "reference" none,
    .edge (.n (dp ++ [k]) .defP) (.n (dp ++ [k]) .ref) 0 ]

/-- One match of the parent/child stanza for imported dotted names
(lines 242-269): the pair of identifiers in slots `k` and `k+1`. -/
def pairStepItems (dp : Path) (k : Nat) : List Item :=
  [ .edge (.n (dp ++ [k+1]) .ref) (.n (dp ++ [k+1]) .ref_dot) 0,
    .edge (.n (dp ++ [k+1]) .ref_dot) (.n (dp ++ [k]) .ref) 0,
    .edge (.n (dp ++ [k]) .defP) (.n (dp ++ [k]) .def_dot) 0,
    .edge (.n (dp ++ [k]) .def_dot) (.n (dp ++ [k+1]) .defP) 0,
    .attr (.n (dp ++ [k+1]) .defP) "pop" none,
    .attr (.n (dp ++ [k+1]) .defP) "definition" none,
    .attr (.n (dp ++ [k+1]) .ref) "push" none,
    .attr (.n (dp ++ [k+1]) .ref) "reference" none,
    .attr (.n (dp ++ [k]) .def_dot) "pop" (some (.s ".")),
    .attr (.n (dp ++ [k+1]) .ref_dot) "push" (some (.s ".")) ]

/-- All matches of the parent/child stanza over a dotted name: one per
adjacent identifier pair (the identifier in slot `k` fires when a next
identifier follows it). -/
def dottedPairItems (dp : Path) : Nat → List String → List Item
  | _, [] => []
  | k, _ :: rest =>
      (match rest with
       | [] => []
       | _ :: _ => pairStepItems dp k)
      ++ dottedPairItems dp (k+1) rest

/-- One match of the parent/child stanza for `module_name:` dotted names
(lines 204-222): reference-side wiring only. -/
def modPairStepItems (dp : Path) (k : Nat) : List Item :=
  [ .attr (.n (dp ++ [k+1]) .ref) "push" none,
    .attr (.n (dp ++ [k+1]) .ref) "reference" none,
    .attr (.n (dp ++ [k+1]) .ref_dot) "push" (some (.s ".")),
    .edge (.n (dp ++ [k+1]) .ref) (.n (dp ++ [k+1]) .ref_dot) 0,
    .edge (.n (dp ++ [k+1]) .ref_dot) (.n (dp ++ [k]) .ref) 0 ]

/-- All matches of the `module_name:` parent/child stanza. -/
def modPairItems (dp : Path) : Nat → List String → List Item
  | _, [] => []
  | k, _ :: rest =>
      (match rest with
       | [] => []
       | _ :: _ => modPairStepItems dp k)
      ++ modPairItems dp (k+1) rest

/-- `import a.b...` (lines 84-92 for the root identifier, plus leaf and
pair stanzas). -/
def importNItems (p : Path) (ids : List String) : List Item :=
  (match ids with
   | [] => []
   | _ :: _ =>
     [ .edge (.n p .after_scope) (.n (p ++ [0, 0]) .defP) 1,
       .edge (.n (p ++ [0, 0]) .ref) GNode.root 0,
       .attr (.n (p ++ [0, 0]) .ref) "push" none,
       .attr (.n (p ++ [0, 0]) .ref) "reference" none,
       .attr (.n (p ++ [0, 0]) .defP) "pop" none,
       .attr (.n (p ++ [0, 0]) .defP) "definition" none ]
     ++ leafItems (p ++ [0]) (ids.length - 1))
  ++ dottedPairItems (p ++ [0]) 0 ids

/-- The relative-import prefix stanzas (lines 179-191): a prefix of
exactly `.` is wired to `::parent_module`, a prefix of exactly `..` to
`::grandparent_module`; any other prefix matches neither stanza. -/
def relDotsItems (ctx : Ctx) (pp : Path) (dots : String) : List Item :=
  (if dots = "." then [ .edge (.n pp .ref) ctx.parentModule 0 ] else [])
  ++ (if dots = ".." then [ .edge (.n pp .ref) ctx.grandparentModule 0 ] else [])

/-- Items for the `module_name:` field of a from-import.  For a plain
dotted name the two identical root stanzas (lines 103-109 and 224-230)
both fire, so their attributes and root edge appear twice.  For a
relative import the prefix stanzas fire, plus the first-identifier
stanza of lines 193-202 when a dotted name follows the prefix. -/
def mnameItems (ctx : Ctx) (p : Path) : MName → List Item
  | .plain [] => []
  | .plain ids =>
      [ .edge (.n (p ++ [0, 0]) .ref) GNode.root 0,
        .attr (.n (p ++ [0, 0]) .ref) "push" none,
        .attr (.n (p ++ [0, 0]) .ref) "reference" none,
        .attr (.n (p ++ [0, 0]) .ref) "push" none,
        .attr (.n (p ++ [0, 0]) .ref) "reference" none,
        .edge (.n (p ++ [0, 0]) .ref) GNode.root 0 ]
      ++ modPairItems (p ++ [0]) 0 ids
  | .rel dots ids =>
      relDotsItems ctx (p ++ [0, 0]) dots
      ++ (match ids with
          | [] => []
          | _ :: _ =>
            [ .attr (.n (p ++ [0, 1, 0]) .ref) "push" none,
              .attr (.n (p ++ [0, 1, 0]) .ref) "reference" none,
              .attr (.n (p ++ [0, 1, 0]) .ref_dot) "push" (some (.s ".")),
              .edge (.n (p ++ [0, 1, 0]) .ref) (.n (p ++ [0, 1, 0]) .ref_dot) 0,
              .edge (.n (p ++ [0, 1, 0]) .ref_dot) (.n (p ++ [0, 0]) .ref) 0 ])
      ++ modPairItems (p ++ [0, 1]) 0 ids

/-- The `@prefix_leaf_name` capture of lines 132-147: the last
identifier of the module name, or the bare relative prefix. -/
def mnameLeafRef (p : Path) : MName → Option GNode
  | .plain [] => none
  | .plain ids => some (.n (p ++ [0, ids.length - 1]) .ref)
  | .rel _ [] => some (.n (p ++ [0, 0]) .ref)
  | .rel _ ids => some (.n (p ++ [0, 1, ids.length - 1]) .ref)

/-- Items for one imported dotted name of a from-import (lines 111-120
for its first identifier, line 146 to chain it onto the module name's
leaf, plus leaf and pair stanzas). -/
def fromNameItems (p : Path) (leafRef : Option GNode) : Nat → List (List String) → List Item
  | _, [] => []
  | j, ids :: rest =>
      (match ids with
       | [] => []
       | _ :: _ =>
         [ .edge (.n p .after_scope) (.n (p ++ [1 + j, 0]) .defP) 1,
           .edge (.n (p ++ [1 + j, 0]) .ref) (.n (p ++ [1 + j, 0]) .ref_dot) 0,
           .attr (.n (p ++ [1 + j, 0]) .defP) "pop" none,
           .attr (.n (p ++ [1 + j, 0]) .defP) "definition" none,
           .attr (.n (p ++ [1 + j, 0]) .ref) "push" none,
           .attr (.n (p ++ [1 + j, 0]) .ref) "reference" none,
           .attr (.n (p ++ [1 + j, 0]) .ref_dot) "push" (some (.s ".")) ]
         ++ leafItems (p ++ [1 + j]) (ids.length - 1)
         ++ (match leafRef with
             | none => []
             | some lr => [ .edge (.n (p ++ [1 + j, 0]) .ref_dot) lr 0 ])
         ++ dottedPairItems (p ++ [1 + j]) 0 ids)
      ++ fromNameItems p leafRef (j+1) rest

/-- `from a.b import *` (lines 232-240): the star's dotted reference
hangs off the statement's after-scope with precedence 1 and pushes `.`
onto the module name's leaf reference.  The stanza requires a plain
dotted module name. -/
def importStarItems (ctx : Ctx) (p : Path) (ids : List String) : List Item :=
  (match ids with
   | [] => []
   | _ :: _ =>
     [ .edge (.n p .after_scope) (.n (p ++ [1]) .ref_dot) 1,
       .edge (.n (p ++ [1]) .ref_dot) (.n (p ++ [0, ids.length - 1]) .ref) 0,
       .attr (.n (p ++ [1]) .ref_dot) "push" (some (.s ".")) ])
  ++ mnameItems ctx p (.plain ids)

/-- All items of a from-import statement. -/
def importFromItems (ctx : Ctx) (p : Path) (src : MName) (names : List (List String)) : List Item :=
  mnameItems ctx p src ++ fromNameItems p (mnameLeafRef p src) 0 names

/-! ## Function and class definition stanzas (lines 369-597) -/

/-- Context for the statements of a function body: the stanza's
`let @func::function_returns = @func.return_value` and the two
`let @body::... = nil` lines that sever the enclosing method's implicit
receiver visibility (lines 386-390). -/
def fdBodyCtx (ctx : Ctx) (p : Path) : Ctx :=
  { ctx with functionReturns := some (.n p .return_value)
             classSelfScope := none
             classMemberAttrScope := none }

/-- The first-parameter stanza (lines 459-468): a function's first
plain-identifier parameter is wired to the inherited class self scope
and member-attribute scope (nothing is emitted when those are `nil`). -/
def firstParamItems (ctx : Ctx) (p : Path) : List Item :=
  optEdge (.n (p ++ [1, 0]) .input) ctx.classSelfScope
  ++ optEdgeFrom (.n (p ++ [1, 0]) .output) ctx.classMemberAttrScope
  ++ [ .edge (.n (p ++ [1, 0]) .output) (.n (p ++ [2]) .after_scope) 0,
       .attr (.n (p ++ [1, 0]) .output) "push" none ]

/-- The function-definition stanza (lines 369-391), plus the
function-body block hook of line 313 (`edge @block.before_scope ->
@block::local_scope`). -/
def fdItems (ctx : Ctx) (p : Path) (hasParam : Bool) : List Item :=
  [ .attr (.n (p ++ [0]) .plain) "definiens" (some (.syn p)),
    .edge (.n p .after_scope) (.n (p ++ [0]) .plain) 0,
    .edge (.n (p ++ [0]) .plain) (.n p .callP) 0,
    .edge (.n p .callP) (.n p .return_value) 0,
    .edge (.n (p ++ [2]) .before_scope) (.n (p ++ [1]) .after_scope) 0,
    .edge (.n (p ++ [2]) .before_scope) (.n p .drop_scope) 0,
    .edge (.n p .drop_scope) ctx.bottom 0,
    .attr (.n p .drop_scope) "drop" none,
    .attr (.n (p ++ [0]) .plain) "pop" none,
    .attr (.n (p ++ [0]) .plain) "definition" none,
    .attr (.n p .callP) "pop" (some (.s "()")),
    .attr (.n p .callP) "pop-scope" none,
    .attr (.n (p ++ [1]) .before_scope) "jump-to" none,
    .attr (.n p .return_value) "endpoint" none,
    .edge (.n (p ++ [2]) .before_scope) ctx.localScope 0 ]
  ++ (if hasParam then firstParamItems ctx p else [])

/-- Context inside a class definition node (its `let @class::...`
lines, 563-566). -/
def classScopeCtx (ctx : Ctx) (p : Path) : Ctx :=
  { ctx with superScope := some (.n p .super_scope)
             classParentScope := some (.n p .parent_scope)
             classSelfScope := some (.n p .call_drop)
             classMemberAttrScope := some (.n p .member_attrs) }

/-- The class-definition stanza (lines 539-574): the four traversal
entries (construction, dotted access, self scope, member list) and the
member list's hook onto the last body statement. -/
def classItems (ctx : Ctx) (p : Path) (nBody : Nat) : List Item :=
  [ .attr (.n (p ++ [0]) .plain) "definiens" (some (.syn p)),
    .attr (.n (p ++ [0]) .plain) "syntax_type" (some (.s "class")) ]
  ++ optEdge (.n p .parent_scope) ctx.classParentScope
  ++ [ .edge (.n p .parent_scope) ctx.localScope 0,
       .edge (.n p .after_scope) (.n (p ++ [0]) .plain) 0,
       .edge (.n (p ++ [0]) .plain) (.n p .callP) 0,
       .edge (.n (p ++ [0]) .plain) (.n p .dot) 0,
       .edge (.n p .dot) (.n p .members) 0,
       .edge (.n p .callP) (.n p .call_drop) 0,
       .edge (.n p .call_drop) (.n p .self_scope) 0,
       .edge (.n p .self_scope) (.n p .super_scope) 0,
       .edge (.n p .self_scope) (.n p .self_dot) 0,
       .edge (.n p .self_dot) (.n p .members) 0,
       .edge (.n p .members) (.n p .member_attrs) 0,
       .attr (.n p .callP) "pop" (some (.s "()")),
       .attr (.n p .callP) "pop-scope" none,
       .attr (.n p .call_drop) "drop" none,
       .attr (.n p .dot) "pop" (some (.s ".")),
       .attr (.n p .self_dot) "pop" (some (.s ".")),
       .attr (.n (p ++ [0]) .plain) "pop" none,
       .attr (.n (p ++ [0]) .plain) "definition" none,
       .attr (.n p .member_attrs) "push" (some (.s ".")),
       .attr (.n p .self_scope) "endpoint" none ]
  ++ (if nBody = 0 then []
      else [ .edge (.n p .members) (.n (p ++ [2, nBody - 1]) .after_scope) 0 ])

/-- Superclass wiring (lines 576-581), plus the generic argument-list
stanza (lines 639-645), which also matches the superclass list. -/
def superWireItems (p : Path) : Nat → List (Nat × Expr) → List Item
  | _, [] => []
  | k, (ci, _) :: rest =>
      [ .edge (.n p .super_scope) (.n (p ++ [1, k]) .output) 0,
        .edge (.n (p ++ [1]) .plain) (.n (p ++ [1, k]) .arg_index) 0,
        .attr (.n (p ++ [1, k]) .arg_index) "pop" (some (.num ci)),
        .edge (.n (p ++ [1, k]) .arg_index) (.n (p ++ [1, k]) .output) 0 ]
      ++ superWireItems p (k+1) rest

/-- The match/case stanzas (lines 336-341 and 590-597) for the case
clause in slot `j` of the match statement at `p`. -/
def caseClauseItems (p : Path) (j : Nat) : List Item :=
  [ .edge (.n (p ++ [j]) .before_scope) (.n p .before_scope) 0,
    .edge (.n p .after_scope) (.n (p ++ [j]) .after_scope) 0,
    .edge (.n (p ++ [j, 1]) .before_scope) (.n (p ++ [j, 0]) .new_bindings) 0,
    .edge (.n (p ++ [j, 1]) .before_scope) (.n (p ++ [j]) .before_scope) 0,
    .edge (.n (p ++ [j]) .after_scope) (.n (p ++ [j, 1]) .after_scope) 0,
    .edge (.n (p ++ [j, 0]) .new_bindings) (.n (p ++ [j, 0, 0]) .new_bindings) 0 ]

/-- Context inside a case clause: `let @block::local_scope =
@block.before_scope` (line 338, where `@block` is the clause). -/
def caseCtx (ctx : Ctx) (p : Path) (j : Nat) : Ctx :=
  { ctx with localScope := .n (p ++ [j]) .before_scope }

/-- Decorated-definition wiring (lines 583-588). -/
def decoratedItems (p : Path) : List Item :=
  [ .edge (.n (p ++ [0]) .before_scope) (.n p .before_scope) 0,
    .edge (.n p .after_scope) (.n (p ++ [0]) .after_scope) 0 ]

/-- The non-recursive part of evaluating a block: sequencing edges plus
the `syntax_type` attributes of its direct children. -/
def blockHdrItems (o : Owner) (bp : Path) (isBlock : Bool) (ss : List Stmt) : List Item :=
  blockSeqItems bp isBlock ss.length ++ blockStxItems o bp 0 ss

/-! ## The evaluator

One pass over the tree collecting every transcribed stanza's items,
threading the scoped-variable context exactly as the rule file's
`let`/`var` statements do. -/

mutual

def evalExpr (isPat : Bool) (ctx : Ctx) (p : Path) : Expr → List Item
  | .ident _ => identItems isPat ctx p
  | .attrE obj _ => attrItems isPat p ++ evalExpr false ctx (p ++ [0]) obj
  | .call fn posArgs kwArgs =>
      callCoreItems p
      ++ recvItems p fn posArgs
      ++ kwWireItems (p ++ [1]) 0 kwArgs
      ++ genericArgItems (p ++ [1]) 0 posArgs
      ++ superItems ctx p fn
      ++ evalExpr false ctx (p ++ [0]) fn
      ++ evalPosArgs ctx (p ++ [1]) 0 posArgs
      ++ evalKwArgs ctx (p ++ [1]) 0 kwArgs
  | .listL els =>
      listCoreItems ctx p ++ listBindItems p 0 els ++ evalEls ctx p 0 els

def evalPosArgs (ctx : Ctx) (ap : Path) : Nat → List (Nat × Expr) → List Item
  | _, [] => []
  | k, (_, e) :: rest =>
      evalExpr false ctx (posArgNode ap k) e ++ evalPosArgs ctx ap (k+1) rest

def evalKwArgs (ctx : Ctx) (ap : Path) : Nat → List (String × Expr) → List Item
  | _, [] => []
  | j, (_, e) :: rest =>
      evalExpr false ctx (kwArgNode ap j ++ [1]) e ++ evalKwArgs ctx ap (j+1) rest

def evalEls (ctx : Ctx) (p : Path) : Nat → List Expr → List Item
  | _, [] => []
  | k, e :: rest => evalExpr false ctx (p ++ [k]) e ++ evalEls ctx p (k+1) rest

def evalSupers (ctx : Ctx) (ap : Path) : Nat → List (Nat × Expr) → List Item
  | _, [] => []
  | k, (_, e) :: rest =>
      evalExpr false ctx (ap ++ [k]) e ++ evalSupers ctx ap (k+1) rest

def evalStmt (ctx : Ctx) (p : Path) : Stmt → List Item
  | .passS => []
  | .exprStmt e => evalExpr false ctx (p ++ [0]) e
  | .assign lhs rhs =>
      [ .edge (.n (p ++ [0]) .input) (.n (p ++ [1]) .output) 0 ]
      ++ evalExpr true ctx (p ++ [0]) lhs
      ++ evalExpr false ctx (p ++ [1]) rhs
  | .returnS e =>
      optEdgeFrom (.n (p ++ [0]) .output) ctx.functionReturns
      ++ evalExpr false ctx (p ++ [0]) e
  | .importN ids => importNItems p ids
  | .importFrom src names => importFromItems ctx p src names
  | .importStar ids => importStarItems ctx p ids
  | .fd _ params body =>
      fdItems ctx p (params ≠ [])
      ++ blockHdrItems .functionB (p ++ [2]) true body
      ++ evalStmts (fdBodyCtx ctx p) (p ++ [2]) 0 body
  | .classD _ supers body =>
      classItems ctx p body.length
      ++ superWireItems p 0 supers
      ++ evalSupers (classScopeCtx ctx p) (p ++ [1]) 0 supers
      ++ blockHdrItems .classB (p ++ [2]) true body
      ++ evalStmts (classScopeCtx ctx p) (p ++ [2]) 0 body
  | .decorated inner => decoratedItems p ++ evalStmt ctx (p ++ [0]) inner
  | .ifS thenB elifs elseB =>
      attachBlock ctx p (p ++ [0])
      ++ blockHdrItems .ifB (p ++ [0]) true thenB
      ++ evalStmts ctx (p ++ [0]) 0 thenB
      ++ evalClauses .elifB ctx p 1 elifs
      ++ evalOptClause .elseB ctx p (1 + elifs.length) elseB
  | .forS pat iter body =>
      [ .edge (.n p .before_scope) (.n p .after_scope) 0 ]
      ++ attachBlock ctx p (p ++ [2])
      ++ evalExpr true ctx (p ++ [0]) pat
      ++ evalExpr false ctx (p ++ [1]) iter
      ++ blockHdrItems .forB (p ++ [2]) true body
      ++ evalStmts ctx (p ++ [2]) 0 body
  | .whileS cond body =>
      [ .edge (.n p .before_scope) (.n p .after_scope) 0 ]
      ++ attachBlock ctx p (p ++ [1])
      ++ evalExpr false ctx (p ++ [0]) cond
      ++ blockHdrItems .whileB (p ++ [1]) true body
      ++ evalStmts ctx (p ++ [1]) 0 body
  | .withS body =>
      attachBlock ctx p (p ++ [0])
      ++ blockHdrItems .withB (p ++ [0]) true body
      ++ evalStmts ctx (p ++ [0]) 0 body
  | .tryS body handlers fin =>
      attachBlock ctx p (p ++ [0])
      ++ blockHdrItems .tryB (p ++ [0]) true body
      ++ evalStmts ctx (p ++ [0]) 0 body
      ++ evalClauses .exceptB ctx p 1 handlers
      ++ evalOptClause .finallyB ctx p (1 + handlers.length) fin
  | .matchS cases => evalCases ctx p 0 cases

def evalStmts (ctx : Ctx) (bp : Path) : Nat → List Stmt → List Item
  | _, [] => []
  | i, s :: rest =>
      evalStmt (stCtx ctx bp i) (bp ++ [i]) s ++ evalStmts ctx bp (i+1) rest

def evalClauses (o : Owner) (ctx : Ctx) (p : Path) : Nat → List (List Stmt) → List Item
  | _, [] => []
  | j, b :: rest =>
      attachBlock ctx p (p ++ [j, 0])
      ++ blockHdrItems o (p ++ [j, 0]) true b
      ++ evalStmts ctx (p ++ [j, 0]) 0 b
      ++ evalClauses o ctx p (j+1) rest

def evalOptClause (o : Owner) (ctx : Ctx) (p : Path) (j : Nat) : Option (List Stmt) → List Item
  | none => []
  | some b =>
      attachBlock ctx p (p ++ [j, 0])
      ++ blockHdrItems o (p ++ [j, 0]) true b
      ++ evalStmts ctx (p ++ [j, 0]) 0 b

def evalCases (ctx : Ctx) (p : Path) : Nat → List (Expr × List Stmt) → List Item
  | _, [] => []
  | j, (pat, body) :: rest =>
      caseClauseItems p j
      ++ evalExpr false ctx (p ++ [j, 0, 0]) pat
      ++ blockHdrItems .caseB (p ++ [j, 1]) true body
      ++ evalStmts (caseCtx ctx p j) (p ++ [j, 1]) 0 body
      ++ evalCases ctx p (j+1) rest

end

/-- Evaluation of one block: header items plus the statements, each
under its own `local_scope` context. -/
def evalBlk (o : Owner) (ctx : Ctx) (bp : Path) (isBlock : Bool) (ss : List Stmt) : List Item :=
  blockHdrItems o bp isBlock ss ++ evalStmts ctx bp 0 ss

/-- The whole graph of one source file: the module stanza plus the
statement stanzas, the module node acting as the top-level block. -/
def evalModule (m : Module) : List Item :=
  moduleRuleItems m.dirs m.file
  ++ evalBlk .moduleB (moduleCtx m.dirs) [] false m.stmts

/-! ## Occurrences

To state claims about "every function definition", "every list
literal" and so on, we record which evaluation sites the evaluator
visits, with the context it visits them under, and prove that a visited
site's items all land in the module's graph. -/

/-- A site the evaluator visits: a block's statement list (with the
construct owning the block), one statement, or one expression. -/
inductive Site where
  | blk (o : Owner) (ctx : Ctx) (bp : Path) (isBlock : Bool) (ss : List Stmt)
  | stm (ctx : Ctx) (p : Path) (s : Stmt)
  | exp (isPat : Bool) (ctx : Ctx) (p : Path) (e : Expr)

/-- The items the evaluator emits at a site (including everything under
it). -/
def siteItems : Site → List Item
  | .blk o ctx bp ib ss => evalBlk o ctx bp ib ss
  | .stm ctx p s => evalStmt ctx p s
  | .exp pm ctx p e => evalExpr pm ctx p e

/-- The context a site carries. -/
def ctxOf : Site → Ctx
  | .blk _ ctx _ _ _ => ctx
  | .stm ctx _ _ => ctx
  | .exp _ ctx _ _ => ctx

/-- The evaluator's visit relation: `Occ st m` holds when evaluating
module `m` reaches site `st` (with exactly the context the evaluator
passes there). -/
inductive Occ : Site → Module → Prop
  | top (m : Module) :
      Occ (.blk .moduleB (moduleCtx m.dirs) [] false m.stmts) m
  | blkStmt {o ctx bp ib ss m} (i : Nat) (h : i < ss.length) :
      Occ (.blk o ctx bp ib ss) m →
      Occ (.stm (stCtx ctx bp i) (bp ++ [i]) (ss.get ⟨i, h⟩)) m
  | exprStmtE {ctx p e m} :
      Occ (.stm ctx p (.exprStmt e)) m → Occ (.exp false ctx (p ++ [0]) e) m
  | assignL {ctx p lhs rhs m} :
      Occ (.stm ctx p (.assign lhs rhs)) m → Occ (.exp true ctx (p ++ [0]) lhs) m
  | assignR {ctx p lhs rhs m} :
      Occ (.stm ctx p (.assign lhs rhs)) m → Occ (.exp false ctx (p ++ [1]) rhs) m
  | returnE {ctx p e m} :
      Occ (.stm ctx p (.returnS e)) m → Occ (.exp false ctx (p ++ [0]) e) m
  | fdBody {ctx p nm params body m} :
      Occ (.stm ctx p (.fd nm params body)) m →
      Occ (.blk .functionB (fdBodyCtx ctx p) (p ++ [2]) true body) m
  | classBody {ctx p nm supers body m} :
      Occ (.stm ctx p (.classD nm supers body)) m →
      Occ (.blk .classB (classScopeCtx ctx p) (p ++ [2]) true body) m
  | classSuper {ctx p nm supers body m} (k : Nat) (h : k < supers.length) :
      Occ (.stm ctx p (.classD nm supers body)) m →
      Occ (.exp false (classScopeCtx ctx p) (p ++ [1, k]) (supers.get ⟨k, h⟩).2) m
  | decoratedInner {ctx p inner m} :
      Occ (.stm ctx p (.decorated inner)) m → Occ (.stm ctx (p ++ [0]) inner) m
  | ifThen {ctx p thenB elifs elseB m} :
      Occ (.stm ctx p (.ifS thenB elifs elseB)) m →
      Occ (.blk .ifB ctx (p ++ [0]) true thenB) m
  | ifElif {ctx p thenB elifs elseB m} (j : Nat) (h : j < elifs.length) :
      Occ (.stm ctx p (.ifS thenB elifs elseB)) m →
      Occ (.blk .elifB ctx (p ++ [1 + j, 0]) true (elifs.get ⟨j, h⟩)) m
  | ifElse {ctx p thenB elifs b m} :
      Occ (.stm ctx p (.ifS thenB elifs (some b))) m →
      Occ (.blk .elseB ctx (p ++ [1 + elifs.length, 0]) true b) m
  | forPat {ctx p pat iter body m} :
      Occ (.stm ctx p (.forS pat iter body)) m → Occ (.exp true ctx (p ++ [0]) pat) m
  | forIter {ctx p pat iter body m} :
      Occ (.stm ctx p (.forS pat iter body)) m → Occ (.exp false ctx (p ++ [1]) iter) m
  | forBody {ctx p pat iter body m} :
      Occ (.stm ctx p (.forS pat iter body)) m →
      Occ (.blk .forB ctx (p ++ [2]) true body) m
  | whileCond {ctx p cond body m} :
      Occ (.stm ctx p (.whileS cond body)) m → Occ (.exp false ctx (p ++ [0]) cond) m
  | whileBody {ctx p cond body m} :
      Occ (.stm ctx p (.whileS cond body)) m →
      Occ (.blk .whileB ctx (p ++ [1]) true body) m
  | withBody {ctx p body m} :
      Occ (.stm ctx p (.withS body)) m →
      Occ (.blk .withB ctx (p ++ [0]) true body) m
  | tryBody {ctx p body handlers fin m} :
      Occ (.stm ctx p (.tryS body handlers fin)) m →
      Occ (.blk .tryB ctx (p ++ [0]) true body) m
  | tryHandler {ctx p body handlers fin m} (j : Nat) (h : j < handlers.length) :
      Occ (.stm ctx p (.tryS body handlers fin)) m →
      Occ (.blk .exceptB ctx (p ++ [1 + j, 0]) true (handlers.get ⟨j, h⟩)) m
  | tryFin {ctx p body handlers b m} :
      Occ (.stm ctx p (.tryS body handlers (some b))) m →
      Occ (.blk .finallyB ctx (p ++ [1 + handlers.length, 0]) true b) m
  | matchPat {ctx p cases m} (j : Nat) (h : j < cases.length) :
      Occ (.stm ctx p (.matchS cases)) m →
      Occ (.exp false ctx (p ++ [j, 0, 0]) (cases.get ⟨j, h⟩).1) m
  | matchBody {ctx p cases m} (j : Nat) (h : j < cases.length) :
      Occ (.stm ctx p (.matchS cases)) m →
      Occ (.blk .caseB (caseCtx ctx p j) (p ++ [j, 1]) true (cases.get ⟨j, h⟩).2) m
  | attrObj {pm ctx p obj nm m} :
      Occ (.exp pm ctx p (.attrE obj nm)) m → Occ (.exp false ctx (p ++ [0]) obj) m
  | callFn {pm ctx p fn posArgs kwArgs m} :
      Occ (.exp pm ctx p (.call fn posArgs kwArgs)) m →
      Occ (.exp false ctx (p ++ [0]) fn) m
  | callPos {pm ctx p fn posArgs kwArgs m} (k : Nat) (h : k < posArgs.length) :
      Occ (.exp pm ctx p (.call fn posArgs kwArgs)) m →
      Occ (.exp false ctx (posArgNode (p ++ [1]) k) (posArgs.get ⟨k, h⟩).2) m
  | callKw {pm ctx p fn posArgs kwArgs m} (j : Nat) (h : j < kwArgs.length) :
      Occ (.exp pm ctx p (.call fn posArgs kwArgs)) m →
      Occ (.exp false ctx (kwArgNode (p ++ [1]) j ++ [1]) (kwArgs.get ⟨j, h⟩).2) m
  | listEl {pm ctx p els m} (k : Nat) (h : k < els.length) :
      Occ (.exp pm ctx p (.listL els)) m →
      Occ (.exp false ctx (p ++ [k]) (els.get ⟨k, h⟩)) m

/-! ## Modules exercising the individual claims -/

/-- Module exercising claim C2: an explicit `from m import x` followed
by `from m import *` at the same (module) scope. -/
def c2Mod : Module :=
  { dirs := [], file := "mod.py",
    stmts := [ .importFrom (.plain ["m"]) [["x"]], .importStar ["m"] ] }

/-- Module exercising claim C3: a function `g` nested inside the body
of another function `f`. -/
def c3Mod : Module :=
  { dirs := [], file := "mod.py",
    stmts := [ .fd "f" [] [ .fd "g" [] [ .passS ] ] ] }

/-- Module exercising claim C4: two consecutive statements. -/
def c4Mod : Module :=
  { dirs := [], file := "mod.py", stmts := [ .passS, .passS ] }

/-- Module exercising claim C5: `from . import x` inside `a/b/c.py`. -/
def c5Mod : Module :=
  { dirs := ["a", "b"], file := "c.py",
    stmts := [ .importFrom (.rel "." []) [["x"]] ] }

/-- Module exercising claim C6: a while loop at module level. -/
def c6Mod : Module :=
  { dirs := [], file := "mod.py", stmts := [ .whileS (.ident "c") [ .passS ] ] }

/-- Module exercising claim C7: a class with a method and a top-level
function. -/
def c7Mod : Module :=
  { dirs := [], file := "mod.py",
    stmts := [ .classD "A" [] [ .fd "meth" [] [] ], .fd "f" [] [] ] }

/-- Module exercising claim C8: a call `a.m(x)` whose single positional
argument has parser child-index 1. -/
def c8Mod : Module :=
  { dirs := [], file := "mod.py",
    stmts := [ .exprStmt (.call (.attrE (.ident "a") "m") [(1, .ident "x")] []) ] }

/-- Module exercising claim C9: a class whose method body calls
`super()`. -/
def c9Mod : Module :=
  { dirs := [], file := "mod.py",
    stmts := [ .classD "A" []
      [ .fd "meth" ["self"] [ .exprStmt (.call (.ident "super") [] []) ] ] ] }

/-- Module exercising claim C10: an assignment whose right side is a
list literal. -/
def c10Mod : Module :=
  { dirs := [], file := "mod.py",
    stmts := [ .assign (.ident "x") (.listL []) ] }

/-! Sub-list facts relating each list-walking evaluator function to its
elements, generalised over the walker's running index. -/

theorem evalStmts_sub (ctx : Ctx) (bp : Path) :
    ∀ (ss : List Stmt) (k i : Nat) (h : i < ss.length),
      evalStmt (stCtx ctx bp (k + i)) (bp ++ [k + i]) (ss.get ⟨i, h⟩)
        ⊆ evalStmts ctx bp k ss := by
  intro ss
  induction ss with
  | nil => intro k i h; simp at h
  | cons s rest ih =>
    intro k i h
    match i with
    | 0 => simpa [evalStmts] using List.subset_append_left _ _
    | i + 1 =>
      have h2 : i < rest.length := by simpa using Nat.lt_of_succ_lt_succ h
      refine List.Subset.trans ?_ (List.subset_append_right _ _)
      have := ih (k + 1) i h2
      simpa [Nat.add_assoc, Nat.add_comm 1 i, evalStmts] using this

theorem evalClauses_sub (o : Owner) (ctx : Ctx) (p : Path) :
    ∀ (bs : List (List Stmt)) (k j : Nat) (h : j < bs.length),
      attachBlock ctx p (p ++ [k + j, 0]) ++ evalBlk o ctx (p ++ [k + j, 0]) true (bs.get ⟨j, h⟩)
        ⊆ evalClauses o ctx p k bs := by
  intro bs
  induction bs with
  | nil => intro k j h; simp at h
  | cons b rest ih =>
    intro k j h
    match j with
    | 0 =>
      simp only [Nat.add_zero, List.get]
      intro it hit
      simp only [evalClauses, evalBlk, blockHdrItems, List.append_assoc, List.mem_append] at hit ⊢
      tauto
    | j + 1 =>
      have h2 : j < rest.length := by simpa using Nat.lt_of_succ_lt_succ h
      intro it hit
      have step := ih (k + 1) j h2
      have : it ∈ evalClauses o ctx p (k + 1) rest := by
        apply step
        have e : k + 1 + j = k + (j + 1) := by omega
        simpa [e] using hit
      simp only [evalClauses, List.append_assoc, List.mem_append]
      tauto

theorem evalOptClause_sub (o : Owner) (ctx : Ctx) (p : Path) (j : Nat) (b : List Stmt) :
    attachBlock ctx p (p ++ [j, 0]) ++ evalBlk o ctx (p ++ [j, 0]) true b
      ⊆ evalOptClause o ctx p j (some b) := by
  intro it hit
  simp only [evalOptClause, evalBlk, blockHdrItems, List.append_assoc, List.mem_append] at hit ⊢
  tauto

theorem evalCases_sub (ctx : Ctx) (p : Path) :
    ∀ (cs : List (Expr × List Stmt)) (k j : Nat) (h : j < cs.length),
      evalExpr false ctx (p ++ [k + j, 0, 0]) (cs.get ⟨j, h⟩).1
        ++ evalBlk .caseB (caseCtx ctx p (k + j)) (p ++ [k + j, 1]) true (cs.get ⟨j, h⟩).2
        ⊆ evalCases ctx p k cs := by
  intro cs
  induction cs with
  | nil => intro k j h; simp at h
  | cons c rest ih =>
    intro k j h
    match j with
    | 0 =>
      simp only [Nat.add_zero, List.get]
      intro it hit
      simp only [evalCases, evalBlk, blockHdrItems, List.append_assoc, List.mem_append] at hit ⊢
      tauto
    | j + 1 =>
      have h2 : j < rest.length := by simpa using Nat.lt_of_succ_lt_succ h
      intro it hit
      have step := ih (k + 1) j h2
      have : it ∈ evalCases ctx p (k + 1) rest := by
        apply step
        have e : k + 1 + j = k + (j + 1) := by omega
        simpa [e] using hit
      simp only [evalCases, List.append_assoc, List.mem_append]
      tauto

theorem evalPosArgs_sub (ctx : Ctx) (ap : Path) :
    ∀ (args : List (Nat × Expr)) (k i : Nat) (h : i < args.length),
      evalExpr false ctx (posArgNode ap (k + i)) (args.get ⟨i, h⟩).2
        ⊆ evalPosArgs ctx ap k args := by
  intro args
  induction args with
  | nil => intro k i h; simp at h
  | cons a rest ih =>
    intro k i h
    match i with
    | 0 => simpa [evalPosArgs] using List.subset_append_left _ _
    | i + 1 =>
      have h2 : i < rest.length := by simpa using Nat.lt_of_succ_lt_succ h
      refine List.Subset.trans ?_ (List.subset_append_right _ _)
      have := ih (k + 1) i h2
      simpa [Nat.add_assoc, Nat.add_comm 1 i, evalPosArgs] using this

theorem evalKwArgs_sub (ctx : Ctx) (ap : Path) :
    ∀ (args : List (String × Expr)) (k j : Nat) (h : j < args.length),
      evalExpr false ctx (kwArgNode ap (k + j) ++ [1]) (args.get ⟨j, h⟩).2
        ⊆ evalKwArgs ctx ap k args := by
  intro args
  induction args with
  | nil => intro k j h; simp at h
  | cons a rest ih =>
    intro k j h
    match j with
    | 0 => simpa [evalKwArgs] using List.subset_append_left _ _
    | j + 1 =>
      have h2 : j < rest.length := by simpa using Nat.lt_of_succ_lt_succ h
      refine List.Subset.trans ?_ (List.subset_append_right _ _)
      have := ih (k + 1) j h2
      simpa [Nat.add_assoc, Nat.add_comm 1 j, evalKwArgs] using this

theorem evalEls_sub (ctx : Ctx) (p : Path) :
    ∀ (els : List Expr) (k i : Nat) (h : i < els.length),
      evalExpr false ctx (p ++ [k + i]) (els.get ⟨i, h⟩) ⊆ evalEls ctx p k els := by
  intro els
  induction els with
  | nil => intro k i h; simp at h
  | cons e rest ih =>
    intro k i h
    match i with
    | 0 => simpa [evalEls] using List.subset_append_left _ _
    | i + 1 =>
      have h2 : i < rest.length := by simpa using Nat.lt_of_succ_lt_succ h
      refine List.Subset.trans ?_ (List.subset_append_right _ _)
      have := ih (k + 1) i h2
      simpa [Nat.add_assoc, Nat.add_comm 1 i, evalEls] using this

theorem evalSupers_sub (ctx : Ctx) (ap : Path) :
    ∀ (sups : List (Nat × Expr)) (k i : Nat) (h : i < sups.length),
      evalExpr false ctx (ap ++ [k + i]) (sups.get ⟨i, h⟩).2 ⊆ evalSupers ctx ap k sups := by
  intro sups
  induction sups with
  | nil => intro k i h; simp at h
  | cons a rest ih =>
    intro k i h
    match i with
    | 0 => simpa [evalSupers] using List.subset_append_left _ _
    | i + 1 =>
      have h2 : i < rest.length := by simpa using Nat.lt_of_succ_lt_succ h
      refine List.Subset.trans ?_ (List.subset_append_right _ _)
      have := ih (k + 1) i h2
      simpa [Nat.add_assoc, Nat.add_comm 1 i, evalSupers] using this

/-- Everything emitted at a visited site is in the module's graph. -/
theorem occ_sub {st : Site} {m : Module} (h : Occ st m) :
    siteItems st ⊆ evalModule m := by
  induction h with
  | top m =>
    simpa [siteItems, evalModule] using List.subset_append_right _ _
  | blkStmt i hi _ ih =>
    refine List.Subset.trans ?_ ih
    simp only [siteItems, evalBlk]
    refine List.Subset.trans ?_ (List.subset_append_right _ _)
    simpa using evalStmts_sub _ _ _ 0 i hi
  | exprStmtE _ ih =>
    exact List.Subset.trans (by simp [siteItems, evalStmt]) ih
  | assignL _ ih =>
    refine List.Subset.trans ?_ ih
    intro it hit
    simp only [siteItems, evalStmt, List.append_assoc, List.mem_append] at hit ⊢
    tauto
  | assignR _ ih =>
    refine List.Subset.trans ?_ ih
    intro it hit
    simp only [siteItems, evalStmt, List.append_assoc, List.mem_append] at hit ⊢
    tauto
  | returnE _ ih =>
    refine List.Subset.trans ?_ ih
    intro it hit
    simp only [siteItems, evalStmt, List.append_assoc, List.mem_append] at hit ⊢
    tauto
  | fdBody _ ih =>
    refine List.Subset.trans ?_ ih
    intro it hit
    simp only [siteItems, evalStmt, evalBlk, blockHdrItems,
      List.append_assoc, List.mem_append] at hit ⊢
    tauto
  | classBody _ ih =>
    refine List.Subset.trans ?_ ih
    intro it hit
    simp only [siteItems, evalStmt, evalBlk, blockHdrItems,
      List.append_assoc, List.mem_append] at hit ⊢
    tauto
  | classSuper k hk _ ih =>
    rename_i ctx p nm sups body mm hOcc
    refine List.Subset.trans ?_ ih
    intro it hit
    have hit2 : it ∈ evalSupers (classScopeCtx ctx p) (p ++ [1]) 0 sups := by
      apply evalSupers_sub (classScopeCtx ctx p) (p ++ [1]) sups 0 k hk
      simpa [siteItems] using hit
    simp only [siteItems, evalStmt, List.append_assoc, List.mem_append]
    tauto
  | decoratedInner _ ih =>
    refine List.Subset.trans ?_ ih
    intro it hit
    simp only [siteItems, evalStmt, List.mem_append] at hit ⊢
    tauto
  | ifThen _ ih =>
    refine List.Subset.trans ?_ ih
    intro it hit
    simp only [siteItems, evalStmt, evalBlk, blockHdrItems,
      List.append_assoc, List.mem_append] at hit ⊢
    tauto
  | ifElif j hj _ ih =>
    rename_i ctx p thenB elifs elseB mm hOcc
    refine List.Subset.trans ?_ ih
    intro it hit
    have hit2 : it ∈ evalClauses .elifB ctx p 1 elifs := by
      apply evalClauses_sub .elifB ctx p elifs 1 j hj
      simp only [List.mem_append]
      right
      simpa [siteItems] using hit
    simp only [siteItems, evalStmt, List.append_assoc, List.mem_append]
    tauto
  | ifElse _ ih =>
    rename_i ctx p thenB elifs b mm hOcc
    refine List.Subset.trans ?_ ih
    intro it hit
    have hit2 : it ∈ evalOptClause .elseB ctx p (1 + elifs.length) (some b) := by
      apply evalOptClause_sub .elseB ctx p (1 + elifs.length) b
      simp only [List.mem_append]
      right
      simpa [siteItems] using hit
    simp only [siteItems, evalStmt, List.append_assoc, List.mem_append]
    tauto
  | forPat _ ih =>
    refine List.Subset.trans ?_ ih
    intro it hit
    simp only [siteItems, evalStmt, List.append_assoc, List.mem_append] at hit ⊢
    tauto
  | forIter _ ih =>
    refine List.Subset.trans ?_ ih
    intro it hit
    simp only [siteItems, evalStmt, List.append_assoc, List.mem_append] at hit ⊢
    tauto
  | forBody _ ih =>
    refine List.Subset.trans ?_ ih
    intro it hit
    simp only [siteItems, evalStmt, evalBlk, blockHdrItems,
      List.append_assoc, List.mem_append] at hit ⊢
    tauto
  | whileCond _ ih =>
    refine List.Subset.trans ?_ ih
    intro it hit
    simp only [siteItems, evalStmt, List.append_assoc, List.mem_append] at hit ⊢
    tauto
  | whileBody _ ih =>
    refine List.Subset.trans ?_ ih
    intro it hit
    simp only [siteItems, evalStmt, evalBlk, blockHdrItems,
      List.append_assoc, List.mem_append] at hit ⊢
    tauto
  | withBody _ ih =>
    refine List.Subset.trans ?_ ih
    intro it hit
    simp only [siteItems, evalStmt, evalBlk, blockHdrItems,
      List.append_assoc, List.mem_append] at hit ⊢
    tauto
  | tryBody _ ih =>
    refine List.Subset.trans ?_ ih
    intro it hit
    simp only [siteItems, evalStmt, evalBlk, blockHdrItems,
      List.append_assoc, List.mem_append] at hit ⊢
    tauto
  | tryHandler j hj _ ih =>
    rename_i ctx p body handlers fin mm hOcc
    refine List.Subset.trans ?_ ih
    intro it hit
    have hit2 : it ∈ evalClauses .exceptB ctx p 1 handlers := by
      apply evalClauses_sub .exceptB ctx p handlers 1 j hj
      simp only [List.mem_append]
      right
      simpa [siteItems] using hit
    simp only [siteItems, evalStmt, List.append_assoc, List.mem_append]
    tauto
  | tryFin _ ih =>
    rename_i ctx p body handlers b mm hOcc
    refine List.Subset.trans ?_ ih
    intro it hit
    have hit2 : it ∈ evalOptClause .finallyB ctx p (1 + handlers.length) (some b) := by
      apply evalOptClause_sub .finallyB ctx p (1 + handlers.length) b
      simp only [List.mem_append]
      right
      simpa [siteItems] using hit
    simp only [siteItems, evalStmt, List.append_assoc, List.mem_append]
    tauto
  | matchPat j hj _ ih =>
    rename_i ctx p cs mm hOcc
    refine List.Subset.trans ?_ ih
    intro it hit
    have hit2 : it ∈ evalCases ctx p 0 cs := by
      apply evalCases_sub ctx p cs 0 j hj
      simp only [List.mem_append]
      left
      simpa [siteItems] using hit
    simpa [siteItems, evalStmt] using hit2
  | matchBody j hj _ ih =>
    rename_i ctx p cs mm hOcc
    refine List.Subset.trans ?_ ih
    intro it hit
    have hit2 : it ∈ evalCases ctx p 0 cs := by
      apply evalCases_sub ctx p cs 0 j hj
      simp only [List.mem_append]
      right
      simpa [siteItems] using hit
    simpa [siteItems, evalStmt] using hit2
  | attrObj _ ih =>
    refine List.Subset.trans ?_ ih
    intro it hit
    simp only [siteItems, evalExpr, List.append_assoc, List.mem_append] at hit ⊢
    tauto
  | callFn _ ih =>
    refine List.Subset.trans ?_ ih
    intro it hit
    simp only [siteItems, evalExpr, List.append_assoc, List.mem_append] at hit ⊢
    tauto
  | callPos k hk _ ih =>
    rename_i pm ctx p fn pargs kargs mm hOcc
    refine List.Subset.trans ?_ ih
    intro it hit
    have hit2 : it ∈ evalPosArgs ctx (p ++ [1]) 0 pargs := by
      apply evalPosArgs_sub ctx (p ++ [1]) pargs 0 k hk
      simpa [siteItems] using hit
    simp only [siteItems, evalExpr, List.append_assoc, List.mem_append]
    tauto
  | callKw j hj _ ih =>
    rename_i pm ctx p fn pargs kargs mm hOcc
    refine List.Subset.trans ?_ ih
    intro it hit
    have hit2 : it ∈ evalKwArgs ctx (p ++ [1]) 0 kargs := by
      apply evalKwArgs_sub ctx (p ++ [1]) kargs 0 j hj
      simpa [siteItems] using hit
    simp only [siteItems, evalExpr, List.append_assoc, List.mem_append]
    tauto
  | listEl k hk _ ih =>
    rename_i pm ctx p els mm hOcc
    refine List.Subset.trans ?_ ih
    intro it hit
    have hit2 : it ∈ evalEls ctx p 0 els := by
      apply evalEls_sub ctx p els 0 k hk
      simpa [siteItems] using hit
    simp only [siteItems, evalExpr, List.append_assoc, List.mem_append]
    tauto

/-- The context fields that no construct ever rebinds: every visited
site still carries the module stanza's `::bottom` (the module's
after-scope), the two global-reference nodes and the parent/grandparent
module references computed by the filepath scan. -/
theorem occ_ctx {st : Site} {m : Module} (h : Occ st m) :
    (ctxOf st).bottom = modN .after_scope ∧
    (ctxOf st).globalRef = modN .global_ref ∧
    (ctxOf st).globalDotRef = modN .global_dot_ref ∧
    (ctxOf st).parentModule = (moduleCtx m.dirs).parentModule ∧
    (ctxOf st).grandparentModule = (moduleCtx m.dirs).grandparentModule := by
  induction h <;>
    simp_all [ctxOf, moduleCtx, stCtx, fdBodyCtx, classScopeCtx, caseCtx]

/-- Closed form of the scan's `parent_module_ref`. -/
theorem scanParentRef_closed :
    ∀ (segs : List String) (i : Nat) (pr : GNode),
      scanParentRef i pr segs =
        (if segs.length = 0 then pr else modN (.mRef (i + segs.length - 1))) := by
  intro segs
  induction segs with
  | nil => intro i pr; simp [scanParentRef]
  | cons s rest ih =>
    intro i pr
    simp only [scanParentRef, ih, List.length_cons]
    by_cases h0 : rest.length = 0 <;> simp [h0]

/-- Closed form of the scan's `grandparent_module_ref`. -/
theorem scanGrandRef_closed :
    ∀ (segs : List String) (i : Nat) (pr gr : GNode),
      scanGrandRef i pr gr segs =
        (if segs.length = 0 then gr
         else if segs.length = 1 then pr
         else modN (.mRef (i + segs.length - 2))) := by
  intro segs
  induction segs with
  | nil => intro i pr gr; simp [scanGrandRef]
  | cons s rest ih =>
    intro i pr gr
    simp only [scanGrandRef, ih, List.length_cons]
    rcases rest with _ | ⟨t, rest2⟩
    · simp
    · simp only [List.length_cons]
      by_cases h0 : rest2.length = 0
      · simp [h0]
      · have e1 : i + 1 + (rest2.length + 1) - 2 = i + (rest2.length + 1 + 1) - 2 := by
          omega
        simp [h0, e1]

/-- Closed form of the scan's `parent_module_def`. -/
theorem scanParentDef_closed :
    ∀ (segs : List String) (i : Nat) (pd : GNode),
      scanParentDef i pd segs =
        (if segs.length = 0 then pd else modN (.mDef (i + segs.length - 1))) := by
  intro segs
  induction segs with
  | nil => intro i pd; simp [scanParentDef]
  | cons s rest ih =>
    intro i pd
    simp only [scanParentDef, ih, List.length_cons]
    by_cases h0 : rest.length = 0 <;> simp [h0]

/-- Each directory segment's scan-arm items are among the scan items. -/
theorem scanDirItems_sub :
    ∀ (segs : List String) (k j : Nat) (h : j < segs.length),
      dirStepItems (k + j) (segs.get ⟨j, h⟩) ⊆ scanDirItems k segs := by
  intro segs
  induction segs with
  | nil => intro k j h; simp at h
  | cons s rest ih =>
    intro k j h
    match j with
    | 0 => simpa [scanDirItems] using List.subset_append_left _ _
    | j + 1 =>
      have h2 : j < rest.length := by simpa using Nat.lt_of_succ_lt_succ h
      refine List.Subset.trans ?_ (List.subset_append_right _ _)
      have := ih (k + 1) j h2
      simpa [Nat.add_assoc, Nat.add_comm 1 j, scanDirItems] using this

/-- The module stanza's items are in the module's graph. -/
theorem moduleRuleItems_sub (m : Module) :
    moduleRuleItems m.dirs m.file ⊆ evalModule m := by
  simpa [evalModule] using List.subset_append_left _ _

/-- The `parent_module` reference the scan computes is never the root
node (it is always a node of the module's reference chain). -/
theorem parentModule_ne_root (dirs : List String) :
    (moduleCtx dirs).parentModule ≠ GNode.root := by
  simp only [moduleCtx, scanParentRef_closed]
  by_cases h0 : dirs.length = 0 <;> simp [h0, modN]

/-- The `grandparent_module` reference the scan computes is never the
root node. -/
theorem grandparentModule_ne_root (dirs : List String) :
    (moduleCtx dirs).grandparentModule ≠ GNode.root := by
  simp only [moduleCtx, scanGrandRef_closed]
  by_cases h0 : dirs.length = 0
  · simp [h0, modN]
  · by_cases h1 : dirs.length = 1 <;> simp [h0, h1, modN]

/-- The `syntax_type` attribute of a block's direct child is among the
block's items. -/
theorem blockStxItems_sub (o : Owner) (bp : Path) :
    ∀ (ss : List Stmt) (k i : Nat) (h : i < ss.length),
      stxTypeItemsFor o (bp ++ [k + i]) (ss.get ⟨i, h⟩) ⊆ blockStxItems o bp k ss := by
  intro ss
  induction ss with
  | nil => intro k i h; simp at h
  | cons s rest ih =>
    intro k i h
    match i with
    | 0 => simpa [blockStxItems] using List.subset_append_left _ _
    | i + 1 =>
      have h2 : i < rest.length := by simpa using Nat.lt_of_succ_lt_succ h
      refine List.Subset.trans ?_ (List.subset_append_right _ _)
      have := ih (k + 1) i h2
      simpa [Nat.add_assoc, Nat.add_comm 1 i, blockStxItems] using this

/-- The generic argument-stanza items of the argument in list position
`k` are among the generic argument items. -/
theorem genericArgItems_mem (ap : Path) :
    ∀ (args : List (Nat × Expr)) (k0 k : Nat) (h : k < args.length),
      [ Item.edge (.n ap .plain) (.n (posArgNode ap (k0 + k)) .arg_index) 0,
        Item.attr (.n (posArgNode ap (k0 + k)) .arg_index) "pop"
          (some (.num (args.get ⟨k, h⟩).1)),
        Item.edge (.n (posArgNode ap (k0 + k)) .arg_index)
          (.n (posArgNode ap (k0 + k)) .output) 0 ]
        ⊆ genericArgItems ap k0 args := by
  intro args
  induction args with
  | nil => intro k0 k h; simp at h
  | cons a rest ih =>
    intro k0 k h
    match k with
    | 0 => simpa [genericArgItems] using List.subset_append_left _ _
    | k + 1 =>
      have h2 : k < rest.length := by simpa using Nat.lt_of_succ_lt_succ h
      refine List.Subset.trans ?_ (List.subset_append_right _ _)
      have := ih (k0 + 1) k h2
      simpa [Nat.add_assoc, Nat.add_comm 1 k, genericArgItems] using this

/-- The attribute-receiver stanza items of the argument in list position
`k` are among the receiver-shift items. -/
theorem recvShiftItems_mem (rcv ap : Path) :
    ∀ (args : List (Nat × Expr)) (k0 k : Nat) (h : k < args.length),
      [ Item.edge (.n ap .plain) (.n (posArgNode ap (k0 + k)) .arg_index) 0,
        Item.edge (.n rcv .plain) (.n rcv .arg_index) 0,
        Item.attr (.n rcv .arg_index) "pop" (some (.s "0")),
        Item.edge (.n rcv .arg_index) (.n rcv .output) 0,
        Item.attr (.n (posArgNode ap (k0 + k)) .arg_index) "pop"
          (some (.num ((args.get ⟨k, h⟩).1 + 1))),
        Item.edge (.n (posArgNode ap (k0 + k)) .arg_index)
          (.n (posArgNode ap (k0 + k)) .output) 0 ]
        ⊆ recvShiftItems rcv ap k0 args := by
  intro args
  induction args with
  | nil => intro k0 k h; simp at h
  | cons a rest ih =>
    intro k0 k h
    match k with
    | 0 => simpa [recvShiftItems] using List.subset_append_left _ _
    | k + 1 =>
      have h2 : k < rest.length := by simpa using Nat.lt_of_succ_lt_succ h
      refine List.Subset.trans ?_ (List.subset_append_right _ _)
      have := ih (k0 + 1) k h2
      simpa [Nat.add_assoc, Nat.add_comm 1 k, recvShiftItems] using this

/-- The binding edge of the imported dotted name in list position `j`
of a from-import is among the statement's name items. -/
theorem fromNameItems_mem (p : Path) (lr : Option GNode) :
    ∀ (names : List (List String)) (k j : Nat) (h : j < names.length),
      names.get ⟨j, h⟩ ≠ [] →
      Item.edge (.n p .after_scope) (.n (p ++ [1 + (k + j), 0]) .defP) 1
        ∈ fromNameItems p lr k names := by
  intro names
  induction names with
  | nil => intro k j h; simp at h
  | cons ids rest ih =>
    intro k j h hne
    match j with
    | 0 =>
      simp only [List.get] at hne
      rcases ids with _ | ⟨a, ids2⟩
      · exact absurd rfl hne
      · simp [fromNameItems]
    | j + 1 =>
      have h2 : j < rest.length := by simpa using Nat.lt_of_succ_lt_succ h
      have := ih (k + 1) j h2 (by simpa using hne)
      simp only [fromNameItems, List.mem_append]
      right
      have e : 1 + (k + 1 + j) = 1 + (k + (j + 1)) := by omega
      rw [e] at this
      exact this

/-! ## Claim C1 -/

/-- C1, counterexample.  The claim says the definition chain pops each
path segment name and that the reference chain mirrors it with matching
pushes.  Both fail: for `pkg/__init__.py` the pop attributes are exactly
the directory pop `pkg` and a `.` pop — no pop of the final path segment
(neither `__init__.py` nor `__init__`) exists; and for `pkg/mod.py` the
push attributes are exactly the directory push `pkg`, a `.` push and the
two global-chain pushes — the file segment `mod` is never pushed, so the
reference chain does not mirror the file segment's pop. -/
theorem c1_counterexample :
    ((moduleRuleItems ["pkg"] "__init__.py").filter fun it =>
        match it with
        | .attr _ "pop" _ => true
        | _ => false) =
      [ .attr (modN (.mDef 0)) "pop" (some (.s "pkg")),
        .attr (modN (.mDefDot 0)) "pop" (some (.s ".")) ] ∧
    ((moduleRuleItems ["pkg"] "mod.py").filter fun it =>
        match it with
        | .attr _ "push" _ => true
        | _ => false) =
      [ .attr (modN (.mRef 0)) "push" (some (.s "pkg")),
        .attr (modN (.mRefDot 0)) "push" (some (.s ".")),
        .attr (modN .global_ref) "push" (some (.s "<builtins>")),
        .attr (modN .global_dot_ref) "push" (some (.s ".")) ] := by
  exact ⟨by decide, by decide⟩

/-- C1, amended.  For a file that is not `__init__.py`, the module
stanza builds: a definition chain from `root` that alternates a pop of
each directory-segment name with a `.` pop, then pops the file name with
`.py` removed (marked a definition) followed by a final `.` pop, and
ends at the module's after-scope; a reference chain whose pushes match
the directory-segment pops only, running from inner to outer with the
outermost node wired to `root`; the `<builtins>` global reference
reached from the module's before-scope through a `.` push; and
`parent_module` / `grandparent_module` bound to the reference-chain
nodes one and two directory segments up (clamped to the file's reference
node when fewer directory segments exist). -/
theorem c1_module_chains (dirs : List String) (file : String)
    (hfile : file ≠ "__init__.py") :
    (Item.edge GNode.root (modN (.mDef 0)) 0 ∈ moduleRuleItems dirs file) ∧
    (∀ i (h : i < dirs.length),
      Item.attr (modN (.mDef i)) "pop" (some (.s (dirs.get ⟨i, h⟩)))
          ∈ moduleRuleItems dirs file ∧
      Item.attr (modN (.mDefDot i)) "pop" (some (.s ".")) ∈ moduleRuleItems dirs file ∧
      Item.edge (modN (.mDef i)) (modN (.mDefDot i)) 0 ∈ moduleRuleItems dirs file ∧
      Item.edge (modN (.mDefDot i)) (modN (.mDef (i + 1))) 0 ∈ moduleRuleItems dirs file) ∧
    (Item.attr (modN (.mDef dirs.length)) "pop" (some (.s (stripPy file)))
        ∈ moduleRuleItems dirs file ∧
     Item.attr (modN (.mDef dirs.length)) "definition" none ∈ moduleRuleItems dirs file ∧
     Item.attr (modN (.mDefDot dirs.length)) "pop" (some (.s "."))
        ∈ moduleRuleItems dirs file ∧
     Item.edge (modN (.mDef dirs.length)) (modN (.mDefDot dirs.length)) 0
        ∈ moduleRuleItems dirs file ∧
     Item.edge (modN (.mDefDot dirs.length)) (modN (.mDef (dirs.length + 1))) 0
        ∈ moduleRuleItems dirs file ∧
     Item.edge (modN (.mDef (dirs.length + 1))) (modN .after_scope) 0
        ∈ moduleRuleItems dirs file) ∧
    (∀ i (h : i < dirs.length),
      Item.attr (modN (.mRef i)) "push" (some (.s (dirs.get ⟨i, h⟩)))
          ∈ moduleRuleItems dirs file ∧
      Item.attr (modN (.mRefDot i)) "push" (some (.s ".")) ∈ moduleRuleItems dirs file ∧
      Item.edge (modN (.mRef (i + 1))) (modN (.mRefDot i)) 0 ∈ moduleRuleItems dirs file ∧
      Item.edge (modN (.mRefDot i)) (modN (.mRef i)) 0 ∈ moduleRuleItems dirs file) ∧
    (Item.edge (modN (.mRef 0)) GNode.root 0 ∈ moduleRuleItems dirs file) ∧
    (Item.edge (modN .before_scope) (modN .global_dot_ref) 0 ∈ moduleRuleItems dirs file ∧
     Item.attr (modN .global_dot_ref) "push" (some (.s ".")) ∈ moduleRuleItems dirs file ∧
     Item.edge (modN .global_dot_ref) (modN .global_ref) 0 ∈ moduleRuleItems dirs file ∧
     Item.attr (modN .global_ref) "push" (some (.s "<builtins>")) ∈ moduleRuleItems dirs file ∧
     Item.edge (modN .global_ref) GNode.root 0 ∈ moduleRuleItems dirs file) ∧
    ((moduleCtx dirs).parentModule = modN (.mRef (dirs.length - 1)) ∧
     (moduleCtx dirs).grandparentModule = modN (.mRef (dirs.length - 2))) := by
  have hdir : ∀ i (h : i < dirs.length),
      dirStepItems i (dirs.get ⟨i, h⟩) ⊆ moduleRuleItems dirs file := by
    intro i h it hit
    have hit2 : it ∈ scanDirItems 0 dirs := by
      apply scanDirItems_sub dirs 0 i h
      simpa using hit
    simp only [moduleRuleItems, List.append_assoc, List.mem_append]
    tauto
  have harm : finalArmItems dirs.length file ⊆ moduleRuleItems dirs file := by
    intro it hit
    simp only [moduleRuleItems, hfile, if_false, List.append_assoc, List.mem_append]
    tauto
  have hclose : ∀ it : Item,
      it ∈ [ Item.edge GNode.root (modN (.mDef 0)) 0,
             Item.edge (modN (.mRef 0)) GNode.root 0,
             Item.edge (modN (.mDef (moduleDefEnd dirs file))) (modN .after_scope) 0,
             Item.edge (modN .before_scope) (modN .global_dot_ref) 0,
             Item.edge (modN .global_ref) GNode.root 0,
             Item.attr (modN .global_ref) "push" (some (.s "<builtins>")),
             Item.edge (modN .global_dot_ref) (modN .global_ref) 0,
             Item.attr (modN .global_dot_ref) "push" (some (.s ".")) ] →
      it ∈ moduleRuleItems dirs file := by
    intro it hit
    simp only [moduleRuleItems, List.append_assoc, List.mem_append]
    tauto
  have hend : moduleDefEnd dirs file = dirs.length + 1 := by
    simp [moduleDefEnd, hfile]
  refine ⟨hclose _ (by simp), ?_, ?_, ?_, hclose _ (by simp), ?_, ?_⟩
  · intro i h
    exact ⟨hdir i h (by simp [dirStepItems]), hdir i h (by simp [dirStepItems]),
      hdir i h (by simp [dirStepItems]), hdir i h (by simp [dirStepItems])⟩
  · refine ⟨harm (by simp [finalArmItems]), harm (by simp [finalArmItems]),
      harm (by simp [finalArmItems]), harm (by simp [finalArmItems]),
      harm (by simp [finalArmItems]), ?_⟩
    have := hclose _ (by simp : Item.edge (modN (.mDef (moduleDefEnd dirs file)))
      (modN .after_scope) 0 ∈ _)
    rwa [hend] at this
  · intro i h
    exact ⟨hdir i h (by simp [dirStepItems]), hdir i h (by simp [dirStepItems]),
      hdir i h (by simp [dirStepItems]), hdir i h (by simp [dirStepItems])⟩
  · exact ⟨hclose _ (by simp), hclose _ (by simp), hclose _ (by simp),
      hclose _ (by simp), hclose _ (by simp)⟩
  · constructor
    · simp only [moduleCtx, scanParentRef_closed]
      by_cases h0 : dirs.length = 0 <;> simp [h0]
    · simp only [moduleCtx, scanGrandRef_closed]
      by_cases h0 : dirs.length = 0
      · simp [h0]
      · by_cases h1 : dirs.length = 1
        · simp [h0, h1]
        · simp [h0, h1]

/-- C1, witness: the amended claim at the file `a/b/c.py`. -/
theorem c1_module_chains_witness :
    Item.attr (modN (.mDef 1)) "pop" (some (.s "b")) ∈ moduleRuleItems ["a", "b"] "c.py" ∧
    Item.attr (modN (.mDef 2)) "pop" (some (.s "c")) ∈ moduleRuleItems ["a", "b"] "c.py" ∧
    Item.attr (modN (.mRef 1)) "push" (some (.s "b")) ∈ moduleRuleItems ["a", "b"] "c.py" ∧
    (moduleCtx ["a", "b"]).parentModule = modN (.mRef 1) ∧
    (moduleCtx ["a", "b"]).grandparentModule = modN (.mRef 0) := by
  have h := c1_module_chains ["a", "b"] "c.py" (by decide)
  exact ⟨(h.2.1 1 (by decide)).1, h.2.2.1.1, (h.2.2.2.1 1 (by decide)).1,
    h.2.2.2.2.2.2.1, h.2.2.2.2.2.2.2⟩

/-! ## Claim C2 -/

/-- C2, counterexample.  In `c2Mod` the wildcard import's edge onto its
statement's after-scope and the explicit import's binding edge both
carry precedence 1, so the wildcard's precedence is not strictly lower
than the explicit binding's. -/
theorem c2_counterexample :
    ((evalModule c2Mod).filter fun it =>
        match it with
        | .edge (.n [1] .after_scope) (.n [1, 1] .ref_dot) _ => true
        | _ => false) =
      [ .edge (.n [1] .after_scope) (.n [1, 1] .ref_dot) 1 ] ∧
    ((evalModule c2Mod).filter fun it =>
        match it with
        | .edge (.n [0] .after_scope) (.n [0, 1, 0] .defP) _ => true
        | _ => false) =
      [ .edge (.n [0] .after_scope) (.n [0, 1, 0] .defP) 1 ] ∧
    ¬ (1 : Nat) < 1 := by
  exact ⟨by decide, by decide, by omega⟩

/-- C2, amended.  The wildcard-import stanza attaches the star's dotted
reference to the statement's after-scope with precedence exactly 1, the
same precedence the explicit from-import stanza gives the binding edge
of an explicitly imported name — equal, not strictly lower. -/
theorem c2_wildcard_precedence {m : Module} {ctx ctx2 : Ctx} {p q : Path}
    {ids : List String} {src : MName} {names : List (List String)}
    (hstar : Occ (.stm ctx p (.importStar ids)) m) (hids : ids ≠ [])
    (hfrom : Occ (.stm ctx2 q (.importFrom src names)) m)
    (j : Nat) (hj : j < names.length) (hne : names.get ⟨j, hj⟩ ≠ []) :
    Item.edge (.n p .after_scope) (.n (p ++ [1]) .ref_dot) 1 ∈ evalModule m ∧
    Item.edge (.n q .after_scope) (.n (q ++ [1 + j, 0]) .defP) 1 ∈ evalModule m := by
  constructor
  · apply occ_sub hstar
    rcases ids with _ | ⟨a, rest⟩
    · exact absurd rfl hids
    · simp [siteItems, evalStmt, importStarItems]
  · apply occ_sub hfrom
    have hm := fromNameItems_mem q (mnameLeafRef q src) names 0 j hj hne
    simp only [Nat.zero_add] at hm
    simp only [siteItems, evalStmt, importFromItems, List.mem_append]
    right
    exact hm

/-- C2, witness: the amended claim at `c2Mod`. -/
theorem c2_wildcard_precedence_witness :
    Item.edge (.n [1] .after_scope) (.n [1, 1] .ref_dot) 1 ∈ evalModule c2Mod ∧
    Item.edge (.n [0] .after_scope) (.n [0, 1, 0] .defP) 1 ∈ evalModule c2Mod := by
  have h := c2_wildcard_precedence
    (Occ.blkStmt 1 (by decide) (Occ.top c2Mod)) (by decide)
    (Occ.blkStmt 0 (by decide) (Occ.top c2Mod)) 0 (by decide) (by decide)
  simpa using h

/-! ## Claim C3 -/

/-- C3, counterexample.  The nested function `g` (at path `[0, 2, 0]`)
has exactly one drop-scope edge, and it leads to the module's
after-scope — not to any scope of its defining (enclosing) function
`f`: the target differs from `f`'s body scopes. -/
theorem c3_counterexample :
    ((evalModule c3Mod).filter fun it =>
        match it with
        | .edge (.n [0, 2, 0] .drop_scope) _ _ => true
        | _ => false) =
      [ .edge (.n [0, 2, 0] .drop_scope) (modN .after_scope) 0 ] ∧
    modN .after_scope ≠ GNode.n [0, 2] .after_scope ∧
    modN .after_scope ≠ GNode.n [0, 2] .before_scope ∧
    modN .after_scope ≠ GNode.n [0, 2, 0] .before_scope := by
  exact ⟨by decide, by decide, by decide, by decide⟩

/-- C3, amended.  Every function body's scope chain bottoms out in the
function's drop-scope node, which carries the `drop` attribute and whose
outgoing edge leads to the module's after-scope (the `::bottom` scoped
variable, bound once by the module stanza and never rebound) — the
defining scope only for module-level functions; and the context entering
the body has `class_self_scope` and `class_member_attr_scope` reset to
`nil`. -/
theorem c3_function_drop {m : Module} {ctx : Ctx} {p : Path} {nm : String}
    {params : List String} {body : List Stmt}
    (h : Occ (.stm ctx p (.fd nm params body)) m) :
    Item.edge (.n p .drop_scope) (modN .after_scope) 0 ∈ evalModule m ∧
    Item.attr (.n p .drop_scope) "drop" none ∈ evalModule m ∧
    Item.edge (.n (p ++ [2]) .before_scope) (.n p .drop_scope) 0 ∈ evalModule m ∧
    (fdBodyCtx ctx p).classSelfScope = none ∧
    (fdBodyCtx ctx p).classMemberAttrScope = none := by
  have hb := (occ_ctx h).1
  refine ⟨?_, ?_, ?_, rfl, rfl⟩
  · have hmem : Item.edge (.n p .drop_scope) ctx.bottom 0 ∈ evalModule m := by
      apply occ_sub h
      simp [siteItems, evalStmt, fdItems]
    rwa [show ctx.bottom = modN .after_scope from hb] at hmem
  · apply occ_sub h
    simp [siteItems, evalStmt, fdItems]
  · apply occ_sub h
    simp [siteItems, evalStmt, fdItems]

/-- C3, witness: the amended claim at the nested function `g` of
`c3Mod`. -/
theorem c3_function_drop_witness :
    Item.edge (.n [0, 2, 0] .drop_scope) (modN .after_scope) 0 ∈ evalModule c3Mod ∧
    Item.attr (.n [0, 2, 0] .drop_scope) "drop" none ∈ evalModule c3Mod := by
  have h := c3_function_drop
    (Occ.blkStmt 0 (by decide) (Occ.fdBody (Occ.blkStmt 0 (by decide) (Occ.top c3Mod))))
  exact ⟨h.1, h.2.1⟩

/-! ## Claim C4 -/

/-- C4, confirmed.  In every block (module or block node), each
statement's before-scope has an edge to the previous sibling's
after-scope, the first statement's before-scope has an edge to the
block's before-scope, and the context of statement `i` binds
`local_scope` to that statement's own before-scope. -/
theorem c4_block_sequencing {m : Module} {o : Owner} {ctx : Ctx} {bp : Path}
    {ib : Bool} {ss : List Stmt}
    (h : Occ (.blk o ctx bp ib ss) m) (i : Nat) :
    (i + 1 < ss.length →
      Item.edge (.n (bp ++ [i + 1]) .before_scope) (.n (bp ++ [i]) .after_scope) 0
        ∈ evalModule m) ∧
    (0 < ss.length →
      Item.edge (.n (bp ++ [0]) .before_scope) (.n bp .before_scope) 0 ∈ evalModule m) ∧
    (stCtx ctx bp i).localScope = .n (bp ++ [i]) .before_scope := by
  refine ⟨?_, ?_, rfl⟩
  · intro hi
    apply occ_sub h
    simp only [siteItems, evalBlk, blockHdrItems, List.append_assoc, List.mem_append]
    left
    simp only [blockSeqItems, List.mem_append, List.mem_flatMap]
    right
    refine ⟨i, ?_, ?_⟩
    · simp only [List.mem_range]
      omega
    · simp [hi]
  · intro hn
    apply occ_sub h
    simp only [siteItems, evalBlk, blockHdrItems, List.append_assoc, List.mem_append]
    left
    simp only [blockSeqItems, List.mem_append]
    left
    have hne : ss.length ≠ 0 := by omega
    cases ib <;> simp [hne]

/-- C4, witness: the sequencing edges of `c4Mod`. -/
theorem c4_block_sequencing_witness :
    Item.edge (.n [1] .before_scope) (.n [0] .after_scope) 0 ∈ evalModule c4Mod ∧
    Item.edge (.n [0] .before_scope) (modN .before_scope) 0 ∈ evalModule c4Mod ∧
    (stCtx (moduleCtx []) [] 0).localScope = .n [0] .before_scope := by
  have h := c4_block_sequencing (Occ.top c4Mod) 0
  exact ⟨h.1 (by decide), h.2.1 (by decide), h.2.2⟩

/-! ## Claim C5 -/

/-- C5, confirmed.  A relative-import prefix of exactly `.` is wired to
the module's `parent_module` reference node and a prefix of exactly `..`
to the `grandparent_module` node; neither of those nodes is `Root`, and
the prefix stanzas never emit an edge to `Root`. -/
theorem c5_relative_import {m : Module} {ctx : Ctx} {p : Path}
    {dots : String} {ids : List String} {names : List (List String)}
    (h : Occ (.stm ctx p (.importFrom (.rel dots ids) names)) m) :
    (dots = "." →
      Item.edge (.n (p ++ [0, 0]) .ref) (moduleCtx m.dirs).parentModule 0
        ∈ evalModule m) ∧
    (dots = ".." →
      Item.edge (.n (p ++ [0, 0]) .ref) (moduleCtx m.dirs).grandparentModule 0
        ∈ evalModule m) ∧
    (moduleCtx m.dirs).parentModule ≠ GNode.root ∧
    (moduleCtx m.dirs).grandparentModule ≠ GNode.root ∧
    (∀ prec : Nat, Item.edge (.n (p ++ [0, 0]) .ref) GNode.root prec
        ∉ relDotsItems ctx (p ++ [0, 0]) dots) := by
  have hctx := occ_ctx h
  have hpar : ctx.parentModule = (moduleCtx m.dirs).parentModule := hctx.2.2.2.1
  have hgr : ctx.grandparentModule = (moduleCtx m.dirs).grandparentModule := hctx.2.2.2.2
  refine ⟨?_, ?_, parentModule_ne_root m.dirs, grandparentModule_ne_root m.dirs, ?_⟩
  · intro hd
    have hmem : Item.edge (.n (p ++ [0, 0]) .ref) ctx.parentModule 0 ∈ evalModule m := by
      apply occ_sub h
      simp [siteItems, evalStmt, importFromItems, mnameItems, relDotsItems, hd]
    rwa [hpar] at hmem
  · intro hd
    have hmem : Item.edge (.n (p ++ [0, 0]) .ref) ctx.grandparentModule 0
        ∈ evalModule m := by
      apply occ_sub h
      simp [siteItems, evalStmt, importFromItems, mnameItems, relDotsItems, hd]
    rwa [hgr] at hmem
  · intro prec hmem
    simp only [relDotsItems, List.mem_append] at hmem
    rcases hmem with hm | hm
    · by_cases hd : dots = "."
      · simp only [hd, if_pos] at hm
        simp only [List.mem_singleton, Item.edge.injEq] at hm
        have : ctx.parentModule = GNode.root := hm.2.1.symm
        rw [hpar] at this
        exact parentModule_ne_root m.dirs this
      · simp [hd] at hm
    · by_cases hd : dots = ".."
      · simp only [hd, if_pos] at hm
        simp only [List.mem_singleton, Item.edge.injEq] at hm
        have : ctx.grandparentModule = GNode.root := hm.2.1.symm
        rw [hgr] at this
        exact grandparentModule_ne_root m.dirs this
      · simp [hd] at hm

/-- C5, witness: `from . import x` in `a/b/c.py` reaches the reference
node that pushes `b` (one directory segment up). -/
theorem c5_relative_import_witness :
    Item.edge (.n [0, 0, 0] .ref) (modN (.mRef 1)) 0 ∈ evalModule c5Mod := by
  have h := c5_relative_import (Occ.blkStmt 0 (by decide) (Occ.top c5Mod))
  have e : (moduleCtx c5Mod.dirs).parentModule = modN (.mRef 1) := by decide
  have h1 := h.1 rfl
  rwa [e] at h1

/-! ## Claim C6 -/

/-- C6, confirmed.  A for- or while-statement sitting in a block has
both the loop stanza's edge from its before-scope to its after-scope
and the generic per-statement edge from its after-scope back to its
before-scope: the two scope nodes are joined directly in both
directions, with no node (hence no push or pop operation) between
them. -/
theorem c6_loop_scope_transparent {m : Module} {o : Owner} {ctx : Ctx} {bp : Path}
    {ib : Bool} {ss : List Stmt} (h : Occ (.blk o ctx bp ib ss) m)
    (i : Nat) (hi : i < ss.length)
    (hloop : (∃ pat iter body, ss.get ⟨i, hi⟩ = .forS pat iter body) ∨
             (∃ cond body, ss.get ⟨i, hi⟩ = .whileS cond body)) :
    Item.edge (.n (bp ++ [i]) .before_scope) (.n (bp ++ [i]) .after_scope) 0
      ∈ evalModule m ∧
    Item.edge (.n (bp ++ [i]) .after_scope) (.n (bp ++ [i]) .before_scope) 0
      ∈ evalModule m := by
  constructor
  · have hst := Occ.blkStmt i hi h
    rcases hloop with ⟨pat, iter, body, he⟩ | ⟨cond, body, he⟩
    · rw [he] at hst
      apply occ_sub hst
      simp [siteItems, evalStmt]
    · rw [he] at hst
      apply occ_sub hst
      simp [siteItems, evalStmt]
  · apply occ_sub h
    simp only [siteItems, evalBlk, blockHdrItems, List.append_assoc, List.mem_append]
    left
    simp only [blockSeqItems, List.mem_append, List.mem_flatMap]
    right
    refine ⟨i, ?_, ?_⟩
    · simp only [List.mem_range]
      omega
    · simp

/-- C6, witness: the while loop of `c6Mod`. -/
theorem c6_loop_scope_transparent_witness :
    Item.edge (.n [0] .before_scope) (.n [0] .after_scope) 0 ∈ evalModule c6Mod ∧
    Item.edge (.n [0] .after_scope) (.n [0] .before_scope) 0 ∈ evalModule c6Mod := by
  have h := c6_loop_scope_transparent (Occ.top c6Mod) 0 (by decide)
    (Or.inr ⟨.ident "c", [.passS], rfl⟩)
  simpa using h

/-! ## Claim C7 -/

/-- C7, confirmed.  A function definition directly inside a block (also
under a `decorated_definition`) gets the `syntax_type` label of its
owning construct: `method` exactly when the construct is a class body,
`function` for every other construct; and the classification stanzas
emit only `syntax_type` attributes, never edges. -/
theorem c7_syntax_type {m : Module} {o : Owner} {ctx : Ctx} {bp : Path}
    {ib : Bool} {ss : List Stmt} (h : Occ (.blk o ctx bp ib ss) m)
    (i : Nat) (hi : i < ss.length) :
    (∀ nm params body, ss.get ⟨i, hi⟩ = .fd nm params body →
      Item.attr (.n (bp ++ [i, 0]) .plain) "syntax_type" (some (.s (stxTypeFor o)))
        ∈ evalModule m) ∧
    (∀ nm params body, ss.get ⟨i, hi⟩ = .decorated (.fd nm params body) →
      Item.attr (.n (bp ++ [i, 0, 0]) .plain) "syntax_type" (some (.s (stxTypeFor o)))
        ∈ evalModule m) ∧
    (stxTypeFor o = "method" ↔ o = .classB) ∧
    (∀ (o2 : Owner) (p2 : Path) (s2 : Stmt), ∀ it ∈ stxTypeItemsFor o2 p2 s2,
      ∃ nd v, it = Item.attr nd "syntax_type" (some (.s v))) := by
  refine ⟨?_, ?_, ?_, ?_⟩
  · intro nm params body he
    apply occ_sub h
    simp only [siteItems, evalBlk, blockHdrItems, List.append_assoc, List.mem_append]
    right; left
    have hs := blockStxItems_sub o bp ss 0 i hi
    simp only [Nat.zero_add] at hs
    apply hs
    rw [he]
    simp [stxTypeItemsFor]
  · intro nm params body he
    apply occ_sub h
    simp only [siteItems, evalBlk, blockHdrItems, List.append_assoc, List.mem_append]
    right; left
    have hs := blockStxItems_sub o bp ss 0 i hi
    simp only [Nat.zero_add] at hs
    apply hs
    rw [he]
    simp [stxTypeItemsFor]
  · cases o <;> simp [stxTypeFor]
  · intro o2 p2 s2 it hit
    cases s2
    case fd =>
      simp only [stxTypeItemsFor, List.mem_singleton] at hit
      exact ⟨_, _, hit⟩
    case decorated inner =>
      cases inner
      case fd =>
        simp only [stxTypeItemsFor, List.mem_singleton] at hit
        exact ⟨_, _, hit⟩
      all_goals simp [stxTypeItemsFor] at hit
    all_goals simp [stxTypeItemsFor] at hit

/-- C7, witness: in `c7Mod` the class-body function is labelled
`method` and the module-level function `function`. -/
theorem c7_syntax_type_witness :
    Item.attr (.n [0, 2, 0, 0] .plain) "syntax_type" (some (.s "method"))
      ∈ evalModule c7Mod ∧
    Item.attr (.n [1, 0] .plain) "syntax_type" (some (.s "function"))
      ∈ evalModule c7Mod := by
  have h1 := (c7_syntax_type
    (Occ.classBody (Occ.blkStmt 0 (by decide) (Occ.top c7Mod))) 0 (by decide)).1
    "meth" [] [] rfl
  have h2 := (c7_syntax_type (Occ.top c7Mod) 1 (by decide)).1 "f" [] [] rfl
  exact ⟨h1, h2⟩

/-! ## Claim C8 -/

/-- C8, counterexample.  In `c8Mod` the positional argument's arg-index
node carries two pop attributes, `2` (child-index + 1, from the
attribute-receiver stanza) and `1` (the plain child-index, from the
generic argument stanza, which fires on attribute calls as well) — so
arguments of an attribute call are not threaded only at
child-index + 1. -/
theorem c8_counterexample :
    ((evalModule c8Mod).filter fun it =>
        match it with
        | .attr (.n [0, 0, 1, 0, 0] .arg_index) "pop" _ => true
        | _ => false) =
      [ .attr (.n [0, 0, 1, 0, 0] .arg_index) "pop" (some (.num 2)),
        .attr (.n [0, 0, 1, 0, 0] .arg_index) "pop" (some (.num 1)) ] := by
  decide

/-- C8, amended.  For a call with an attribute-access callee, the
receiver is threaded at symbol `"0"` and each positional argument pops
child-index + 1 — and additionally pops its plain child-index, because
the generic argument stanza matches the same argument list; a call with
a non-attribute callee gets only the plain child-index pop (the
receiver stanza contributes nothing there). -/
theorem c8_argument_threading {m : Module} {pm : Bool} {ctx : Ctx} {p : Path}
    {fn : Expr} {posArgs : List (Nat × Expr)} {kwArgs : List (String × Expr)}
    (h : Occ (.exp pm ctx p (.call fn posArgs kwArgs)) m)
    (k : Nat) (hk : k < posArgs.length) :
    (∀ obj anm, fn = .attrE obj anm →
      Item.attr (.n (posArgNode (p ++ [1]) k) .arg_index) "pop"
          (some (.num ((posArgs.get ⟨k, hk⟩).1 + 1))) ∈ evalModule m ∧
      Item.attr (.n (p ++ [0, 0]) .arg_index) "pop" (some (.s "0")) ∈ evalModule m ∧
      Item.edge (.n (p ++ [0, 0]) .arg_index) (.n (p ++ [0, 0]) .output) 0
        ∈ evalModule m) ∧
    Item.attr (.n (posArgNode (p ++ [1]) k) .arg_index) "pop"
        (some (.num (posArgs.get ⟨k, hk⟩).1)) ∈ evalModule m ∧
    Item.edge (.n (posArgNode (p ++ [1]) k) .arg_index)
        (.n (posArgNode (p ++ [1]) k) .output) 0 ∈ evalModule m ∧
    ((∀ obj anm, fn ≠ .attrE obj anm) → recvItems p fn posArgs = []) := by
  refine ⟨?_, ?_, ?_, ?_⟩
  · intro obj anm he
    subst he
    refine ⟨?_, ?_, ?_⟩ <;>
    · apply occ_sub h
      simp only [siteItems, evalExpr, recvItems, List.append_assoc, List.mem_append]
      right; left
      have hm := recvShiftItems_mem (p ++ [0, 0]) (p ++ [1]) posArgs 0 k hk
      simp only [Nat.zero_add] at hm
      apply hm
      simp
  · apply occ_sub h
    simp only [siteItems, evalExpr, List.append_assoc, List.mem_append]
    right; right; right; left
    have hm := genericArgItems_mem (p ++ [1]) posArgs 0 k hk
    simp only [Nat.zero_add] at hm
    apply hm
    simp
  · apply occ_sub h
    simp only [siteItems, evalExpr, List.append_assoc, List.mem_append]
    right; right; right; left
    have hm := genericArgItems_mem (p ++ [1]) posArgs 0 k hk
    simp only [Nat.zero_add] at hm
    apply hm
    simp
  · intro hne
    cases fn
    case attrE obj anm => exact absurd rfl (hne obj anm)
    all_goals rfl

/-- C8, witness: the amended claim at `c8Mod`. -/
theorem c8_argument_threading_witness :
    Item.attr (.n [0, 0, 1, 0, 0] .arg_index) "pop" (some (.num 2)) ∈ evalModule c8Mod ∧
    Item.attr (.n [0, 0, 1, 0, 0] .arg_index) "pop" (some (.num 1)) ∈ evalModule c8Mod ∧
    Item.attr (.n [0, 0, 0, 0] .arg_index) "pop" (some (.s "0")) ∈ evalModule c8Mod := by
  have h := c8_argument_threading
    (Occ.exprStmtE (Occ.blkStmt 0 (by decide) (Occ.top c8Mod))) 0 (by decide)
  have ha := h.1 (.ident "a") "m" rfl
  exact ⟨ha.1, h.2.1, ha.2.1⟩

/-! ## Claim C9 -/

/-- C9, confirmed.  A call whose callee is the bare identifier `super`
wires its output node directly to the inherited `::super_scope`; a
class definition rebinds `::super_scope` to its own super-scope node for
its whole subtree, so inside a class body the inherited value is the
innermost enclosing class's super-scope. -/
theorem c9_super_call {m : Module} {pm : Bool} {ctx : Ctx} {p : Path}
    {posArgs : List (Nat × Expr)} {kwArgs : List (String × Expr)} {s : GNode}
    (h : Occ (.exp pm ctx p (.call (.ident "super") posArgs kwArgs)) m)
    (hs : ctx.superScope = some s) :
    Item.edge (.n p .output) s 0 ∈ evalModule m ∧
    (∀ (ctx2 : Ctx) (q : Path),
      (classScopeCtx ctx2 q).superScope = some (.n q .super_scope)) := by
  refine ⟨?_, fun ctx2 q => rfl⟩
  apply occ_sub h
  simp [siteItems, evalExpr, superItems, optEdge, hs]

/-- C9, witness: the `super()` call in `c9Mod`'s method reaches class
`A`'s super-scope node. -/
theorem c9_super_call_witness :
    Item.edge (.n [0, 2, 0, 2, 0, 0] .output) (.n [0] .super_scope) 0
      ∈ evalModule c9Mod := by
  have h := c9_super_call
    (Occ.exprStmtE (Occ.blkStmt 0 (by decide) (Occ.fdBody
      (Occ.blkStmt 0 (by decide) (Occ.classBody
        (Occ.blkStmt 0 (by decide) (Occ.top c9Mod))))))) rfl
  exact h.1

/-! ## Claim C10 -/

/-- C10, confirmed.  Every list literal's output reaches a node that
pushes `list` and continues into the module's global builtins chain:
the `.` push node, then the `<builtins>` push node, then `Root`. -/
theorem c10_list_literal {m : Module} {pm : Bool} {ctx : Ctx} {p : Path}
    {els : List Expr}
    (h : Occ (.exp pm ctx p (.listL els)) m) :
    Item.edge (.n p .output) (.n p .called) 0 ∈ evalModule m ∧
    Item.attr (.n p .called) "push" (some (.s "list")) ∈ evalModule m ∧
    Item.edge (.n p .called) (modN .global_dot_ref) 0 ∈ evalModule m ∧
    Item.attr (modN .global_dot_ref) "push" (some (.s ".")) ∈ evalModule m ∧
    Item.edge (modN .global_dot_ref) (modN .global_ref) 0 ∈ evalModule m ∧
    Item.attr (modN .global_ref) "push" (some (.s "<builtins>")) ∈ evalModule m ∧
    Item.edge (modN .global_ref) GNode.root 0 ∈ evalModule m := by
  have hctx := occ_ctx h
  have hg : ctx.globalDotRef = modN .global_dot_ref := hctx.2.2.1
  refine ⟨?_, ?_, ?_, ?_, ?_, ?_, ?_⟩
  · apply occ_sub h
    simp [siteItems, evalExpr, listCoreItems]
  · apply occ_sub h
    simp [siteItems, evalExpr, listCoreItems]
  · have hmem : Item.edge (.n p .called) ctx.globalDotRef 0 ∈ evalModule m := by
      apply occ_sub h
      simp [siteItems, evalExpr, listCoreItems]
    rwa [hg] at hmem
  · apply moduleRuleItems_sub m
    simp only [moduleRuleItems, List.append_assoc, List.mem_append]
    right; right; right
    simp
  · apply moduleRuleItems_sub m
    simp only [moduleRuleItems, List.append_assoc, List.mem_append]
    right; right; right
    simp
  · apply moduleRuleItems_sub m
    simp only [moduleRuleItems, List.append_assoc, List.mem_append]
    right; right; right
    simp
  · apply moduleRuleItems_sub m
    simp only [moduleRuleItems, List.append_assoc, List.mem_append]
    right; right; right
    simp

/-- C10, witness: the list literal of `c10Mod`. -/
theorem c10_list_literal_witness :
    Item.edge (.n [0, 1] .output) (.n [0, 1] .called) 0 ∈ evalModule c10Mod ∧
    Item.attr (.n [0, 1] .called) "push" (some (.s "list")) ∈ evalModule c10Mod ∧
    Item.edge (.n [0, 1] .called) (modN .global_dot_ref) 0 ∈ evalModule c10Mod := by
  have h := c10_list_literal
    (Occ.assignR (Occ.blkStmt 0 (by decide) (Occ.top c10Mod)))
  exact ⟨h.1, h.2.1, h.2.2.1⟩

end StackRules
